import Mathlib

/-!
# Song.cpp: a shallow embedding

The translation unit `Song.cpp` implements one class, `Song`, together with three
file-local string helpers.  Every function of the file is translated below, in the
order of the source, as a total Lean function:

* a `std::string` is the list of its `char`s (`Str`), a `std::vector<std::string>` a list
  of such lists;
* an `int` is an `Int` in the range of a 32-bit `int`.  The only arithmetic the file
  performs on an `int` is the post-increment `next_id_++`, modelled with two's-complement
  wrap-around (`wrap_int`): at `INT_MAX` the counter continues at `INT_MIN`.  (Signed
  overflow is undefined behaviour in C++; wrap-around is what the compiled increment does.)
* the two pieces of process-wide state, the static counter `Song::next_id_` and the text
  written to `std::cerr`, are the two fields of `Env`, which is threaded through every call;
* a member function takes the environment and the receiver and returns its C++ result,
  the receiver afterwards and the environment afterwards.
-/

/-! ## Strings -/

/-- A `std::string`, as the sequence of its `char`s. -/
abbrev Str := List Char

/-- The character set `" \t\n\r"` passed to `find_first_not_of` and `find_last_not_of`. -/
def ws : Str := [' ', '\t', '\n', '\r']

/-- Scan for `std::string::find_first_not_of`: `i` is the index of the head of the part
of the string still to be looked at. -/
def find_first_not_of_from (chars : Str) : Str → Nat → Option Nat
  | [], _ => none
  | c :: cs, i => if c ∈ chars then find_first_not_of_from chars cs (i + 1) else some i

/-- `s.find_first_not_of(chars)`: the index of the first character of `s` that is not one
of `chars`; `none` stands for `std::string::npos`. -/
def find_first_not_of (s chars : Str) : Option Nat :=
  find_first_not_of_from chars s 0

/-- `s.find_last_not_of(chars)`: the index of the last character of `s` that is not one of
`chars`, found by scanning from the back; `none` stands for `std::string::npos`. -/
def find_last_not_of (s chars : Str) : Option Nat :=
  match find_first_not_of s.reverse chars with
  | none => none
  | some j => some (s.length - 1 - j)

/-- `s.substr(pos, n)` for `pos ≤ s.size()`: at most `n` characters starting at `pos`.
(`trim_copy` only calls it with the index of a character of `s`, see
`find_first_not_of_lt`, so the `std::out_of_range` case does not arise.) -/
def substr (s : Str) (pos n : Nat) : Str :=
  (s.drop pos).take n

/-- Source lines 11-21.  When `start` is not `npos` the string has a character outside
`ws`, so `end` is not `npos` either and `start ≤ end` (`find_last_not_of_of_first`):
the `size_t` expression `end - start + 1` is computed without wrap-around. -/
def trim_copy (s : Str) : Str :=
  if s.isEmpty then
    []
  else
    let start := find_first_not_of s ws
    let end_ := find_last_not_of s ws
    match start, end_ with
    | none, _ => []
    | some start, some end_ => substr s start (end_ - start + 1)
    | some _, none => []

/-- Source lines 24-29: `std::tolower` applied to every `char`.  In the "C" locale
`std::tolower` maps `'A'..'Z'` to `'a'..'z'` and leaves every other value alone, which is
what `Char.toLower` does. -/
def to_lower_copy (s : Str) : Str :=
  s.map Char.toLower

/-- Source lines 32-41; the loop index `i` is `0` exactly for the first element. -/
def join_tags : List Str → Str
  | [] => []
  | t :: ts => ts.foldl (fun ss tag => ss ++ ", ".toList ++ tag) t

/-- Scan for `std::string::find`: `i` is the index of the head of the part of the string
still to be looked at. -/
def find_from (pat : Str) : Str → Nat → Option Nat
  | [], i => if pat.isPrefixOf [] then some i else none
  | c :: cs, i => if pat.isPrefixOf (c :: cs) then some i else find_from pat cs (i + 1)

/-- `s.find(pat)`: the least position at which `pat` occurs in `s`; `none` stands for
`std::string::npos`. -/
def find (s pat : Str) : Option Nat :=
  find_from pat s 0

/-! ## Machine integers -/

/-- The value a 32-bit `int` holds when an arithmetic result is `n`: `n` itself when it
lies in `[-2147483648, 2147483647]`, otherwise `n` reduced modulo `2^32` into that range
(two's-complement wrap-around). -/
def wrap_int (n : Int) : Int :=
  (n + 2147483648) % 4294967296 - 2147483648

/-! ## Process-wide state -/

/-- The static member `Song::next_id_` and the lines written to `std::cerr` so far. -/
structure Env where
  next_id_ : Int
  cerr : List String
  deriving DecidableEq, Repr

/-- The state at program start: source line 46, nothing written yet. -/
def Env.init : Env :=
  { next_id_ := 1, cerr := [] }

/-- The statement `std::cerr << msg`. -/
def Env.emit (g : Env) (msg : String) : Env :=
  { g with cerr := g.cerr ++ [msg] }

/-! ## The class -/

/-- Modelled from the spec: the class declaration (`Song.h`) is not among the sources.  The
members are the seven that `Song.cpp` reads and writes, with the types its uses of them
require and the spec's data model lists. -/
structure Song where
  id_ : Int
  title_ : Str
  artist_ : Str
  duration_sec_ : Int
  rating_ : Int
  tags_ : List Str
  valid_ : Bool
  deriving DecidableEq, Repr

/-- Modelled from the spec: the values the scalar members hold when the constructor body
starts.  The constructor has no member initialiser list, so these are whatever `Song.h`
(missing) declares, or indeterminate; they are a parameter of every construction. -/
structure Indet where
  id_ : Int
  duration_sec_ : Int
  rating_ : Int
  valid_ : Bool
  deriving DecidableEq, Repr

/-- Modelled from the spec: the object on entry to the constructor body.  The two strings
and the tag vector are default-constructed, hence empty (the spec: a new Track has an
empty tag sequence); the scalar members are as `u` says. -/
def Song.fresh (u : Indet) : Song :=
  { id_ := u.id_, title_ := [], artist_ := [], duration_sec_ := u.duration_sec_,
    rating_ := u.rating_, tags_ := [], valid_ := u.valid_ }

/-- Source lines 86-94. -/
def Song.set_title (g : Env) (self : Song) (t : Str) : Bool × Song × Env :=
  let trimmed := trim_copy t
  if trimmed.isEmpty then
    (false, self, g.emit "[提示] 标题不能为空，已忽略本次修改\n")
  else
    (true, { self with title_ := trimmed }, g)

/-- Source lines 96-104. -/
def Song.set_artist (g : Env) (self : Song) (a : Str) : Bool × Song × Env :=
  let trimmed := trim_copy a
  if trimmed.isEmpty then
    (false, self, g.emit "[提示] 艺人不能为空，已忽略本次修改\n")
  else
    (true, { self with artist_ := trimmed }, g)

/-- Source lines 106-113. -/
def Song.set_duration (g : Env) (self : Song) (sec : Int) : Bool × Song × Env :=
  if sec ≤ 0 then
    (false, self, g.emit "[提示] 时长需为正整数，已忽略本次修改\n")
  else
    (true, { self with duration_sec_ := sec }, g)

/-- Source lines 115-122. -/
def Song.set_rating (g : Env) (self : Song) (r : Int) : Bool × Song × Env :=
  if r < 1 ∨ r > 5 then
    (false, self, g.emit "[提示] 评分需在 1..5，已忽略本次修改\n")
  else
    (true, { self with rating_ := r }, g)

/-- Source lines 133-138: does the range-for loop of `add_tag` reach its `return false`? -/
def add_tag_scan (lower_tag : Str) : List Str → Bool
  | [] => false
  | existing :: rest =>
    if to_lower_copy existing = lower_tag then true else add_tag_scan lower_tag rest

/-- Source lines 125-142. -/
def Song.add_tag (g : Env) (self : Song) (tag : Str) : Bool × Song × Env :=
  let trimmed_tag := trim_copy tag
  if trimmed_tag.isEmpty then
    (false, self, g.emit "[提示] 空标签忽略。\n")
  else
    let lower_tag := to_lower_copy trimmed_tag
    if add_tag_scan lower_tag self.tags_ then
      (false, self, g.emit "[提示] 标签已存在（忽略大小写）\n")
    else
      (true, { self with tags_ := self.tags_ ++ [trimmed_tag] }, g)

/-- Source lines 146-151: the index at which the loop of `remove_tag` erases, if it does.
`rest` is `tags_` from index `i` on. -/
def remove_tag_scan (target : Str) : List Str → Nat → Option Nat
  | [], _ => none
  | t :: rest, i =>
    if to_lower_copy t = target then some i else remove_tag_scan target rest (i + 1)

/-- Source lines 144-155; `eraseIdx i` is `tags_.erase(tags_.begin() + i)`. -/
def Song.remove_tag (g : Env) (self : Song) (tag : Str) : Bool × Song × Env :=
  let target := to_lower_copy (trim_copy tag)
  match remove_tag_scan target self.tags_ 0 with
  | some i => (true, { self with tags_ := self.tags_.eraseIdx i }, g)
  | none => (false, self, g.emit "[提示] 未找到该标签\n")

/-- Source lines 174-178: the range-for loop of `matches_keyword`. -/
def matches_keyword_scan (lower_kw : Str) : List Str → Bool
  | [] => false
  | tag :: rest =>
    if (find (to_lower_copy tag) lower_kw).isSome then true
    else matches_keyword_scan lower_kw rest

/-- Source lines 158-181.  The member function is `const` and writes nothing to
`std::cerr`: receiver and environment are returned as they came. -/
def Song.matches_keyword (g : Env) (self : Song) (kw : Str) : Bool × Song × Env :=
  let trimmed_kw := trim_copy kw
  if trimmed_kw.isEmpty then
    (false, self, g)
  else
    let lower_kw := to_lower_copy trimmed_kw
    if (find (to_lower_copy self.title_) lower_kw).isSome then
      (true, self, g)
    else if (find (to_lower_copy self.artist_) lower_kw).isSome then
      (true, self, g)
    else if matches_keyword_scan lower_kw self.tags_ then
      (true, self, g)
    else
      (false, self, g)

set_option linter.dupNamespace false in
/-- Source lines 49-83.  `chk` carries the local `has_error` and the environment through
the four independent checks.  Line 77, `id_ = next_id_++`, stores the old counter value in
`id_` and leaves the counter at the `int` value of `next_id_ + 1`. -/
def Song.Song (g : Env) (u : Indet) (title artist : Str) (duration_sec rating : Int) :
    Song × Env :=
  let trimmed_title := trim_copy title
  let trimmed_artist := trim_copy artist
  let chk0 : Bool × Env := (false, g)
  let chk1 : Bool × Env :=
    if trimmed_title.isEmpty then (true, chk0.2.emit "[错误] 标题不能为空\n") else chk0
  let chk2 : Bool × Env :=
    if trimmed_artist.isEmpty then (true, chk1.2.emit "[错误] 艺人不能为空\n") else chk1
  let chk3 : Bool × Env :=
    if duration_sec ≤ 0 then (true, chk2.2.emit "[错误] 时长必须为正整数（秒）\n") else chk2
  let chk4 : Bool × Env :=
    if rating < 1 ∨ rating > 5 then (true, chk3.2.emit "[错误] 评分必须在 1...5 之间\n")
    else chk3
  if chk4.1 then
    ({ Song.fresh u with valid_ := false }, chk4.2)
  else
    ({ Song.fresh u with
        id_ := chk4.2.next_id_
        title_ := trimmed_title
        artist_ := trimmed_artist
        duration_sec_ := duration_sec
        rating_ := rating
        valid_ := true },
     { chk4.2 with next_id_ := wrap_int (chk4.2.next_id_ + 1) })

/-! ## Output and ordering -/

/-- What `os << n` writes for an `int` on a stream with default formatting: the decimal
digits, after a minus sign when `n` is negative. -/
def decimal : Int → Str
  | Int.ofNat m => Nat.toDigits 10 m
  | Int.negSucc m => '-' :: Nat.toDigits 10 (m + 1)

/-- The temporary `std::string(n, c)` for an `int` count `n`.  The count parameter is a
`size_t`; a negative `n` converts to a value above `max_size()` and the constructor throws
`std::length_error`: `none`. -/
def fill_string (n : Int) (c : Char) : Option Str :=
  if n < 0 then none else some (List.replicate n.toNat c)

/-- Source lines 184-196, for a stream in good state with default formatting: `os` is the
text the stream holds before the call, the result the text it holds after it; `none` when
the construction of the row of asterisks throws. -/
def operator_shl (os : Str) (s : Song) : Option Str :=
  let os1 := os ++ "[#".toList ++ decimal s.id_ ++ "] ".toList ++ s.artist_ ++ " - ".toList ++
    s.title_ ++ " (".toList ++ decimal s.duration_sec_ ++ "s) ".toList
  match fill_string s.rating_ '*' with
  | none => none
  | some stars =>
    let os2 := os1 ++ stars
    if !s.tags_.isEmpty then
      some (os2 ++ "  [tags: ".toList ++ join_tags s.tags_ ++ "]".toList)
    else
      some os2

/-- `a < b` for two `std::string`s: the first position at which they differ decides, by
the order of the `char`s taken as `unsigned char`; when there is none, the shorter string
is the smaller. -/
def string_lt : Str → Str → Bool
  | [], [] => false
  | [], _ :: _ => true
  | _ :: _, [] => false
  | x :: xs, y :: ys =>
    if x < y then true else if y < x then false else string_lt xs ys

/-- Source lines 199-207. -/
def operator_lt (a b : Song) : Bool :=
  if a.rating_ ≠ b.rating_ then
    decide (a.rating_ > b.rating_)
  else if a.title_ ≠ b.title_ then
    string_lt a.title_ b.title_
  else
    decide (a.id_ < b.id_)

/-- The spec's wording of "trimmed": the string without its longest prefix and without
its longest suffix made of space, tab, newline and carriage return only. -/
def trimmed_by_spec (s : Str) : Str :=
  (s.dropWhile (fun c => decide (c ∈ ws))).rdropWhile (fun c => decide (c ∈ ws))

/-- The spec's wording of the tag list: the tags in order, `", "` between neighbours. -/
def joined_by_spec (tags : List Str) : Str :=
  ", ".toList.intercalate tags

/-! ## Sequences of calls -/

/-- The arguments of one constructor call, with the scalars the object holds on entry. -/
structure CtorCall where
  u : Indet
  title : Str
  artist : Str
  duration_sec : Int
  rating : Int
  deriving DecidableEq, Repr

/-- A program that constructs one `Song` per element of the list, in order: the objects
constructed (valid or not) and the environment at the end. -/
def construct_all (g : Env) : List CtorCall → List Song × Env
  | [] => ([], g)
  | c :: cs =>
    let r := Song.Song g c.u c.title c.artist c.duration_sec c.rating
    let rest := construct_all r.2 cs
    (r.1 :: rest.1, rest.2)

/-- One call of a mutating member function, with its argument. -/
inductive Call where
  | set_title (t : Str)
  | set_artist (a : Str)
  | set_duration (sec : Int)
  | set_rating (r : Int)
  | add_tag (tag : Str)
  | remove_tag (tag : Str)
  deriving DecidableEq, Repr

/-- Perform one call on `self`. -/
def Call.run (g : Env) (self : Song) : Call → Bool × Song × Env
  | .set_title t => Song.set_title g self t
  | .set_artist a => Song.set_artist g self a
  | .set_duration sec => Song.set_duration g self sec
  | .set_rating r => Song.set_rating g self r
  | .add_tag tag => Song.add_tag g self tag
  | .remove_tag tag => Song.remove_tag g self tag

/-- Perform the calls of the list on `self`, in order, whatever each of them returns. -/
def run_calls (g : Env) (self : Song) : List Call → Song × Env
  | [] => (self, g)
  | c :: cs =>
    let r := c.run g self
    run_calls r.2.2 r.2.1 cs

/-- The spec's example: `Song("  Yesterday ", "The Beatles", 125, 5)` as the first
construction of a process; the object and the environment afterwards. -/
def construct_yesterday : Song × Env :=
  Song.Song Env.init ⟨0, 0, 0, false⟩ "  Yesterday ".toList "The Beatles".toList 125 5

/-- The object of the spec's example. -/
def yesterday : Song :=
  construct_yesterday.1

/-- A sample object with the given id, title and rating, by The Beatles, 100 s, no tags. -/
def sample (id : Int) (title : String) (rating : Int) : Song :=
  { id_ := id, title_ := title.toList, artist_ := "The Beatles".toList, duration_sec_ := 100,
    rating_ := rating, tags_ := [], valid_ := true }

/-- Three constructor calls, the second of which fails (rating 0); the two valid objects
are `sample 1 "Yesterday" 5` and `sample 2 "Let It Be" 3`. -/
def sample_run : List CtorCall :=
  [⟨⟨0, 0, 0, false⟩, " Yesterday".toList, "The Beatles".toList, 100, 5⟩,
    ⟨⟨0, 0, 0, false⟩, "Help".toList, "The Beatles".toList, 100, 0⟩,
    ⟨⟨0, 0, 0, false⟩, "Let It Be".toList, "The Beatles".toList, 100, 3⟩]

/-- The constructor call of the spec's example. -/
def yesterday_call : CtorCall :=
  ⟨⟨0, 0, 0, false⟩, "  Yesterday ".toList, "The Beatles".toList, 125, 5⟩

/-- The class invariant: title and artist are non-empty and trimmed, duration and rating
are in range, and the lower-cased tags are pairwise different. -/
def class_invariant (s : Song) : Prop :=
  s.title_ ≠ [] ∧ trim_copy s.title_ = s.title_ ∧
  s.artist_ ≠ [] ∧ trim_copy s.artist_ = s.artist_ ∧
  0 < s.duration_sec_ ∧ 1 ≤ s.rating_ ∧ s.rating_ ≤ 5 ∧
  (s.tags_.map to_lower_copy).Nodup

instance (s : Song) : Decidable (class_invariant s) := by
  unfold class_invariant; infer_instance

/-- Membership in `" \t\n\r"` as a Boolean test. -/
def isWs (c : Char) : Bool :=
  decide (c ∈ ws)

/-! ## Properties of the string helpers -/

theorem find_first_not_of_from_eq (chars s : Str) (i : Nat) :
    find_first_not_of_from chars s i =
      if (s.takeWhile (fun c => decide (c ∈ chars))).length < s.length then
        some (i + (s.takeWhile (fun c => decide (c ∈ chars))).length)
      else none := by
  induction s generalizing i with
  | nil => simp [find_first_not_of_from]
  | cons c cs ih =>
    by_cases hc : c ∈ chars
    · simp only [find_first_not_of_from, hc, if_true, ih, List.takeWhile_cons, decide_True,
        List.length_cons]
      by_cases h : (cs.takeWhile (fun c => decide (c ∈ chars))).length < cs.length
      · simp [h]; omega
      · simp [h]
    · simp [find_first_not_of_from, hc, List.takeWhile_cons]

theorem dropWhile_eq_drop_takeWhile {α : Type} (p : α → Bool) (l : List α) :
    l.dropWhile p = l.drop (l.takeWhile p).length := by
  have h := congrArg (List.drop (l.takeWhile p).length) (List.takeWhile_append_dropWhile p l)
  rw [List.drop_left] at h
  exact h

theorem rdropWhile_eq_take {α : Type} (p : α → Bool) (l : List α) :
    l.rdropWhile p = l.take (l.length - (l.reverse.takeWhile p).length) := by
  rw [List.rdropWhile, dropWhile_eq_drop_takeWhile, List.drop_reverse]
  simp

theorem length_takeWhile_lt {α : Type} (p : α → Bool) (l : List α) (x : α) (hx : x ∈ l)
    (hpx : p x = false) : (l.takeWhile p).length < l.length := by
  induction l with
  | nil => simp at hx
  | cons y ys ih =>
    by_cases hy : p y = true
    · have hxy : x ∈ ys := by
        rcases List.mem_cons.mp hx with h | h
        · subst h; simp [hpx] at hy
        · exact h
      simpa [List.takeWhile_cons, hy] using ih hxy
    · simp [List.takeWhile_cons, hy]

/-- When some element fails `p`, the run of `p`-elements at the back of the list lies
inside what `dropWhile` keeps, and does not exhaust it. -/
theorem takeWhile_reverse_of_lt {α : Type} (p : α → Bool) (l : List α)
    (h : (l.takeWhile p).length < l.length) :
    l.reverse.takeWhile p = (l.dropWhile p).reverse.takeWhile p ∧
    (l.reverse.takeWhile p).length < (l.dropWhile p).length := by
  have hd : (l.dropWhile p).length = l.length - (l.takeWhile p).length := by
    rw [dropWhile_eq_drop_takeWhile]; simp
  have hdne : l.dropWhile p ≠ [] := by
    intro h0; rw [h0] at hd; simp at hd; omega
  have hmem : (l.dropWhile p).head hdne ∈ (l.dropWhile p).reverse :=
    List.mem_reverse.mpr (List.head_mem hdne)
  have hb := length_takeWhile_lt p _ _ hmem (List.head_dropWhile_not p l hdne)
  have hrev : l.reverse.takeWhile p = (l.dropWhile p).reverse.takeWhile p := by
    conv_lhs => rw [← List.takeWhile_append_dropWhile p l, List.reverse_append,
      List.takeWhile_append]
    rw [if_neg (Nat.ne_of_lt hb)]
  refine ⟨hrev, ?_⟩
  rw [hrev]
  simpa using hb

/-- The index `find_first_not_of` returns is the index of a character of the string, so
`substr` is called with a valid position. -/
theorem find_first_not_of_lt (s chars : Str) (i : Nat)
    (h : find_first_not_of s chars = some i) : i < s.length := by
  rw [find_first_not_of, find_first_not_of_from_eq] at h
  split_ifs at h with hlt
  simp only [Option.some.injEq] at h
  omega

/-- When `find_first_not_of` returns an index, `find_last_not_of` returns one too, and it
is not smaller: `end - start + 1` in `trim_copy` does not wrap around. -/
theorem find_last_not_of_of_first (s chars : Str) (i : Nat)
    (h : find_first_not_of s chars = some i) :
    ∃ j, find_last_not_of s chars = some j ∧ i ≤ j ∧ j < s.length := by
  rw [find_first_not_of, find_first_not_of_from_eq] at h
  split_ifs at h with hlt
  simp only [Option.some.injEq] at h
  obtain ⟨_, hb⟩ := takeWhile_reverse_of_lt (fun c => decide (c ∈ chars)) s hlt
  have hd : (s.dropWhile (fun c => decide (c ∈ chars))).length =
      s.length - (s.takeWhile (fun c => decide (c ∈ chars))).length := by
    rw [dropWhile_eq_drop_takeWhile]; simp
  have hb2 : (s.reverse.takeWhile (fun c => decide (c ∈ chars))).length < s.reverse.length := by
    simp only [List.length_reverse]; omega
  refine ⟨s.length - 1 - (s.reverse.takeWhile (fun c => decide (c ∈ chars))).length, ?_, ?_, ?_⟩
  · simp only [find_last_not_of, find_first_not_of, find_first_not_of_from_eq, hb2, if_true,
      Nat.zero_add]
  · omega
  · omega

/-- What `trim_copy` computes: the string without its leading and its trailing run of
whitespace. -/
theorem trim_copy_eq (s : Str) :
    trim_copy s = (s.dropWhile isWs).rdropWhile isWs := by
  have hp : (fun c => decide (c ∈ ws)) = isWs := rfl
  by_cases hs : s = []
  · subst hs; simp [trim_copy]
  have hne : s.isEmpty = false := by cases s <;> simp_all
  have hd : (s.dropWhile isWs).length = s.length - (s.takeWhile isWs).length := by
    rw [dropWhile_eq_drop_takeWhile]; simp
  by_cases hall : (s.takeWhile isWs).length < s.length
  · -- some character is not whitespace
    obtain ⟨hrev, hb⟩ := takeWhile_reverse_of_lt isWs s hall
    have hb2 : (s.reverse.takeWhile isWs).length < s.length := by omega
    simp only [trim_copy, hne, find_first_not_of, find_last_not_of, find_first_not_of_from_eq, hp,
      hall, List.length_reverse, hb2, if_true, Nat.zero_add, substr]
    rw [rdropWhile_eq_take, ← hrev, hd, dropWhile_eq_drop_takeWhile]
    rw [if_neg (by simp)]
    congr 1
    omega
  · have hnil : s.dropWhile isWs = [] := by
      apply List.eq_nil_of_length_eq_zero; omega
    simp [trim_copy, hne, find_first_not_of, find_first_not_of_from_eq, hp, hall, hnil]

theorem trim_copy_nil : trim_copy [] = [] := by
  simp [trim_copy]

/-- A trimmed string is left alone by a second trim. -/
theorem trim_copy_idem (s : Str) : trim_copy (trim_copy s) = trim_copy s := by
  have key : ((s.dropWhile isWs).rdropWhile isWs).dropWhile isWs =
      (s.dropWhile isWs).rdropWhile isWs := by
    obtain ⟨t, ht⟩ := List.rdropWhile_prefix isWs (s.dropWhile isWs)
    cases hr : (s.dropWhile isWs).rdropWhile isWs with
    | nil => simp
    | cons x r =>
      rw [hr] at ht
      have h := List.head?_dropWhile_not isWs s
      rw [← ht] at h
      have hx : isWs x = false := by simpa using h
      simp [List.dropWhile_cons, hx]
  rw [trim_copy_eq (trim_copy s), trim_copy_eq s, key, List.rdropWhile_idempotent]

/-- The trim is empty exactly for the strings made of whitespace only (the empty string
among them). -/
theorem trim_copy_eq_nil_iff (s : Str) : trim_copy s = [] ↔ ∀ c ∈ s, c ∈ ws := by
  rw [trim_copy_eq, List.rdropWhile_eq_nil_iff]
  constructor
  · intro h
    have hd : s.dropWhile isWs = [] := by
      by_contra hne
      have h1 := List.head_dropWhile_not isWs s hne
      have h2 := h _ (List.head_mem hne)
      rw [h1] at h2
      exact Bool.false_ne_true h2
    rw [List.dropWhile_eq_nil_iff] at hd
    intro c hc
    simpa [isWs] using hd c hc
  · intro h
    have hd : s.dropWhile isWs = [] :=
      List.dropWhile_eq_nil_iff.mpr (fun x hx => by simpa [isWs] using h x hx)
    rw [hd]
    simp

theorem isEmpty_eq_true_iff (s : Str) : s.isEmpty = true ↔ s = [] := by
  cases s <;> simp

/-! ## Properties of the loops -/

theorem add_tag_scan_iff (lower_tag : Str) (tags : List Str) :
    add_tag_scan lower_tag tags = true ↔ ∃ e ∈ tags, to_lower_copy e = lower_tag := by
  induction tags with
  | nil => simp [add_tag_scan]
  | cons t ts ih =>
    by_cases h : to_lower_copy t = lower_tag
    · simp [add_tag_scan, h]
    · simp [add_tag_scan, h, ih]

theorem remove_tag_scan_none_iff (target : Str) (tags : List Str) (i : Nat) :
    remove_tag_scan target tags i = none ↔ ∀ e ∈ tags, to_lower_copy e ≠ target := by
  induction tags generalizing i with
  | nil => simp [remove_tag_scan]
  | cons t ts ih =>
    by_cases h : to_lower_copy t = target
    · simp [remove_tag_scan, h]
    · simp [remove_tag_scan, h, ih]

theorem remove_tag_scan_some (target : Str) (tags : List Str) (i k : Nat)
    (hk : remove_tag_scan target tags i = some k) :
    ∃ n, ∃ hn : n < tags.length, k = i + n ∧ to_lower_copy tags[n] = target ∧
      ∀ m, ∀ hm : m < tags.length, m < n → to_lower_copy tags[m] ≠ target := by
  induction tags generalizing i with
  | nil => simp [remove_tag_scan] at hk
  | cons t ts ih =>
    by_cases h : to_lower_copy t = target
    · simp [remove_tag_scan, h] at hk
      exact ⟨0, by simp, by omega, by simpa using h, by intro m hm hlt; omega⟩
    · simp [remove_tag_scan, h] at hk
      obtain ⟨n, hn, hkn, hmatch, hbefore⟩ := ih (i + 1) hk
      refine ⟨n + 1, by simpa using hn, by omega, by simpa using hmatch, ?_⟩
      intro m hm hlt
      cases m with
      | zero => simpa using h
      | succ m =>
        have hm2 : m < ts.length := by simpa using hm
        simpa using hbefore m hm2 (by omega)

theorem find_from_isSome_iff (pat s : Str) (i : Nat) :
    (find_from pat s i).isSome = true ↔ pat <:+: s := by
  induction s generalizing i with
  | nil =>
    by_cases h : pat = []
    · simp [find_from, h]
    · simp [find_from, h]
  | cons c cs ih =>
    rw [List.infix_cons_iff, find_from]
    by_cases h : pat.isPrefixOf (c :: cs) = true
    · simp only [h, if_true, Option.isSome_some, true_iff]
      exact Or.inl (List.isPrefixOf_iff_prefix.mp h)
    · have hf : pat.isPrefixOf (c :: cs) = false := Bool.eq_false_iff.mpr h
      rw [hf, if_neg (by simp), ih]
      constructor
      · exact Or.inr
      · rintro (h2 | h2)
        · exact absurd (List.isPrefixOf_iff_prefix.mpr h2) h
        · exact h2

theorem find_isSome_iff (s pat : Str) : (find s pat).isSome = true ↔ pat <:+: s :=
  find_from_isSome_iff pat s 0

theorem matches_keyword_scan_iff (lower_kw : Str) (tags : List Str) :
    matches_keyword_scan lower_kw tags = true ↔
      ∃ t ∈ tags, lower_kw <:+: to_lower_copy t := by
  induction tags with
  | nil => simp [matches_keyword_scan]
  | cons t ts ih =>
    by_cases h : (find (to_lower_copy t) lower_kw).isSome = true
    · have h2 := (find_isSome_iff _ _).mp h
      simp [matches_keyword_scan, h, h2]
    · have h2 : ¬ lower_kw <:+: to_lower_copy t := fun h3 => h ((find_isSome_iff _ _).mpr h3)
      simp [matches_keyword_scan, h, h2, ih]

/-! ## The three outcomes of `add_tag` and the two of `remove_tag` -/

theorem add_tag_of_empty (g : Env) (self : Song) (tag : Str) (h : trim_copy tag = []) :
    self.add_tag g tag = (false, self, g.emit "[提示] 空标签忽略。\n") := by
  simp [Song.add_tag, h]

theorem add_tag_of_dup (g : Env) (self : Song) (tag : Str) (h : trim_copy tag ≠ [])
    (hdup : ∃ e ∈ self.tags_, to_lower_copy e = to_lower_copy (trim_copy tag)) :
    self.add_tag g tag = (false, self, g.emit "[提示] 标签已存在（忽略大小写）\n") := by
  have hscan := (add_tag_scan_iff _ _).mpr hdup
  simp [Song.add_tag, h, hscan]

theorem add_tag_of_new (g : Env) (self : Song) (tag : Str) (h : trim_copy tag ≠ [])
    (hnew : ∀ e ∈ self.tags_, to_lower_copy e ≠ to_lower_copy (trim_copy tag)) :
    self.add_tag g tag =
      (true, { self with tags_ := self.tags_ ++ [trim_copy tag] }, g) := by
  have hscan : add_tag_scan (to_lower_copy (trim_copy tag)) self.tags_ = false := by
    rw [Bool.eq_false_iff, Ne, add_tag_scan_iff]
    rintro ⟨e, he, heq⟩
    exact hnew e he heq
  simp [Song.add_tag, h, hscan]

theorem remove_tag_of_absent (g : Env) (self : Song) (tag : Str)
    (h : ∀ e ∈ self.tags_, to_lower_copy e ≠ to_lower_copy (trim_copy tag)) :
    self.remove_tag g tag = (false, self, g.emit "[提示] 未找到该标签\n") := by
  have hscan := (remove_tag_scan_none_iff _ _ 0).mpr h
  simp [Song.remove_tag, hscan]

theorem remove_tag_of_present (g : Env) (self : Song) (tag : Str)
    (h : ∃ e ∈ self.tags_, to_lower_copy e = to_lower_copy (trim_copy tag)) :
    ∃ i, ∃ hi : i < self.tags_.length,
      to_lower_copy self.tags_[i] = to_lower_copy (trim_copy tag) ∧
      (∀ j, ∀ hj : j < self.tags_.length, j < i →
        to_lower_copy self.tags_[j] ≠ to_lower_copy (trim_copy tag)) ∧
      self.remove_tag g tag = (true, { self with tags_ := self.tags_.eraseIdx i }, g) := by
  cases hscan : remove_tag_scan (to_lower_copy (trim_copy tag)) self.tags_ 0 with
  | none =>
    obtain ⟨e, he, heq⟩ := h
    exact absurd heq ((remove_tag_scan_none_iff _ _ 0).mp hscan e he)
  | some k =>
    obtain ⟨n, hn, hkn, hmatch, hbefore⟩ := remove_tag_scan_some _ _ 0 k hscan
    have hk : k = n := by omega
    subst hk
    exact ⟨k, hn, hmatch, hbefore, by simp [Song.remove_tag, hscan]⟩

theorem add_tag_true_iff (g : Env) (self : Song) (tag : Str) :
    (self.add_tag g tag).1 = true ↔
      (trim_copy tag ≠ [] ∧
        ∀ e ∈ self.tags_, to_lower_copy e ≠ to_lower_copy (trim_copy tag)) := by
  by_cases ht : trim_copy tag = []
  · rw [add_tag_of_empty g self tag ht]
    simp [ht]
  · by_cases hdup : ∃ e ∈ self.tags_, to_lower_copy e = to_lower_copy (trim_copy tag)
    · rw [add_tag_of_dup g self tag ht hdup]
      obtain ⟨e, he, heq⟩ := hdup
      simp only [Bool.false_eq_true, false_iff, not_and, not_forall]
      intro _
      exact ⟨e, he, fun hne => hne heq⟩
    · have hnew : ∀ e ∈ self.tags_, to_lower_copy e ≠ to_lower_copy (trim_copy tag) := by
        intro e he heq
        exact hdup ⟨e, he, heq⟩
      rw [add_tag_of_new g self tag ht hnew]
      simp only [true_iff]
      exact ⟨ht, hnew⟩

/-! ## Construction -/

/-- The constructor's decision: the four checks, all passed. -/
theorem ctor_valid_cond (g : Env) (u : Indet) (title artist : Str)
    (duration_sec rating : Int) :
    (Song.Song g u title artist duration_sec rating).1.valid_ = true ↔
      (trim_copy title ≠ [] ∧ trim_copy artist ≠ [] ∧ 0 < duration_sec ∧
        1 ≤ rating ∧ rating ≤ 5) := by
  by_cases ht : trim_copy title = [] <;> by_cases ha : trim_copy artist = [] <;>
    by_cases hd : duration_sec ≤ 0 <;> by_cases hr : rating < 1 ∨ rating > 5 <;>
    simp [Song.Song, ht, ha, hd, hr, Song.fresh] <;> omega

/-- C1: the constructed object has `valid_ = true` exactly when the trimmed title is
non-empty, the trimmed artist is non-empty, the duration is positive and the rating lies in
1..5; whenever at least one of the four fails (alone or together with others) the one
object the call produces has `valid_ = false`. -/
theorem ctor_valid_iff (g : Env) (u : Indet) (title artist : Str) (duration_sec rating : Int) :
    ((Song.Song g u title artist duration_sec rating).1.valid_ = true ↔
      (trim_copy title ≠ [] ∧ trim_copy artist ≠ [] ∧ 0 < duration_sec ∧
        1 ≤ rating ∧ rating ≤ 5)) ∧
    ((Song.Song g u title artist duration_sec rating).1.valid_ = false ↔
      (trim_copy title = [] ∨ trim_copy artist = [] ∨ duration_sec ≤ 0 ∨
        rating < 1 ∨ 5 < rating)) := by
  by_cases ht : trim_copy title = [] <;> by_cases ha : trim_copy artist = [] <;>
    by_cases hd : duration_sec ≤ 0 <;> by_cases hr : rating < 1 ∨ rating > 5 <;>
    simp [Song.Song, ht, ha, hd, hr, Song.fresh] <;> omega

theorem wrap_int_of_range (n : Int) (h1 : -2147483648 ≤ n) (h2 : n ≤ 2147483647) :
    wrap_int n = n := by
  unfold wrap_int
  omega

theorem wrap_int_add (a b : Int) : wrap_int (wrap_int a + b) = wrap_int (a + b) := by
  unfold wrap_int
  omega

/-- One construction: a valid object carries the old counter value and the counter has
been incremented; an invalid one leaves the counter where it was. -/
theorem ctor_counter (g : Env) (u : Indet) (title artist : Str) (duration_sec rating : Int) :
    ((Song.Song g u title artist duration_sec rating).1.valid_ = true ∧
      (Song.Song g u title artist duration_sec rating).1.id_ = g.next_id_ ∧
      (Song.Song g u title artist duration_sec rating).2.next_id_ =
        wrap_int (g.next_id_ + 1)) ∨
    ((Song.Song g u title artist duration_sec rating).1.valid_ = false ∧
      (Song.Song g u title artist duration_sec rating).2.next_id_ = g.next_id_) := by
  by_cases ht : trim_copy title = [] <;> by_cases ha : trim_copy artist = [] <;>
    by_cases hd : duration_sec ≤ 0 <;> by_cases hr : rating < 1 ∨ rating > 5 <;>
    simp [Song.Song, ht, ha, hd, hr, Song.fresh, Env.emit]

/-- The result of a construction whose arguments pass the four checks. -/
theorem ctor_of_pass (g : Env) (u : Indet) (title artist : Str) (duration_sec rating : Int)
    (hpass : trim_copy title ≠ [] ∧ trim_copy artist ≠ [] ∧ 0 < duration_sec ∧
      1 ≤ rating ∧ rating ≤ 5) :
    Song.Song g u title artist duration_sec rating =
      ({ Song.fresh u with
          id_ := g.next_id_
          title_ := trim_copy title
          artist_ := trim_copy artist
          duration_sec_ := duration_sec
          rating_ := rating
          valid_ := true },
        { g with next_id_ := wrap_int (g.next_id_ + 1) }) := by
  obtain ⟨ht, ha, hd, hr1, hr5⟩ := hpass
  have hr : ¬ (rating < 1 ∨ rating > 5) := by omega
  have hd2 : ¬ duration_sec ≤ 0 := by omega
  simp [Song.Song, ht, ha, hd2, hr, Song.fresh]

/-- While the counter does not overflow, the ids handed out by a run of constructions that
starts with counter value `g.next_id_` are `g.next_id_, g.next_id_ + 1, ...`, in order of
construction. -/
theorem construct_all_ids (calls : List CtorCall) (g : Env)
    (hlo : -2147483648 ≤ g.next_id_)
    (hb : g.next_id_ + (((construct_all g calls).1.filter (fun s => s.valid_)).length : Int) ≤
      2147483647) :
    (((construct_all g calls).1.filter (fun s => s.valid_)).map (fun s => s.id_) =
      (List.range ((construct_all g calls).1.filter (fun s => s.valid_)).length).map
        (fun (k : Nat) => g.next_id_ + (k : Int))) ∧
    (construct_all g calls).2.next_id_ =
      g.next_id_ + (((construct_all g calls).1.filter (fun s => s.valid_)).length : Int) := by
  induction calls generalizing g with
  | nil => simp [construct_all]
  | cons c cs ih =>
    rcases ctor_counter g c.u c.title c.artist c.duration_sec c.rating with
      ⟨hv, hid, hnext⟩ | ⟨hv, hnext⟩
    · simp only [construct_all, List.filter_cons, hv, if_true, List.length_cons,
        Nat.cast_succ] at hb
      have hnext2 : (Song.Song g c.u c.title c.artist c.duration_sec c.rating).2.next_id_ =
          g.next_id_ + 1 := by
        rw [hnext]
        apply wrap_int_of_range <;> omega
      obtain ⟨ih1, ih2⟩ := ih (Song.Song g c.u c.title c.artist c.duration_sec c.rating).2
        (by omega) (by omega)
      simp only [construct_all, List.filter_cons, hv, if_true, List.map_cons, List.length_cons,
        List.range_succ_eq_map, hid, List.map_map]
      refine ⟨?_, ?_⟩
      · rw [ih1, hnext2]
        simp only [Nat.cast_zero, add_zero, List.cons.injEq, true_and]
        apply List.map_congr_left
        intro k _
        simp only [Function.comp, Nat.cast_succ]
        ring
      · rw [ih2, hnext2]; push_cast; ring
    · simp only [construct_all, List.filter_cons, hv] at hb
      obtain ⟨ih1, ih2⟩ := ih (Song.Song g c.u c.title c.artist c.duration_sec c.rating).2
        (by omega) (by rw [hnext]; simpa using hb)
      simp only [construct_all, List.filter_cons, hv]
      rw [hnext] at ih1 ih2
      exact ⟨by simpa using ih1, by simpa using ih2⟩

/-- A run of `n` equal constructor calls with passing arguments: the object constructed at
position `i` carries the counter's start value advanced `i` times with wrap-around. -/
theorem construct_all_replicate (c : CtorCall)
    (hpass : trim_copy c.title ≠ [] ∧ trim_copy c.artist ≠ [] ∧ 0 < c.duration_sec ∧
      1 ≤ c.rating ∧ c.rating ≤ 5)
    (n i : Nat) (g : Env) (a : Int) (hg : g.next_id_ = wrap_int a) (hi : i < n) :
    (construct_all g (List.replicate n c)).1[i]? =
      some { Song.fresh c.u with
        id_ := wrap_int (a + (i : Int))
        title_ := trim_copy c.title
        artist_ := trim_copy c.artist
        duration_sec_ := c.duration_sec
        rating_ := c.rating
        valid_ := true } := by
  induction n generalizing i g a with
  | zero => omega
  | succ n ih =>
    rw [List.replicate_succ]
    simp only [construct_all]
    rw [ctor_of_pass g c.u c.title c.artist c.duration_sec c.rating hpass]
    cases i with
    | zero => simp [hg]
    | succ i =>
      simp only [List.getElem?_cons_succ]
      rw [ih i _ (a + 1) (by simp [hg, wrap_int_add]) (by omega)]
      congr 2
      push_cast
      ring_nf

/-- C2 (amended): in a run of constructor calls that starts with the counter at 1 and has
at most 2147483646 successful constructions, so that the `int` counter does not overflow,
the `k`-th successful construction (counting from one; index `k - 1` below) receives id
`k`: every call either succeeds, takes the current counter value as id and increments the
counter, or fails and leaves the counter alone.  Hence the ids of the valid objects are
positive and strictly increasing in construction order, and the counter ends at one plus
the number of successes, however many failed calls are interleaved. -/
theorem ids_count_successes (log : List String) (calls : List CtorCall)
    (hbound : ((construct_all { next_id_ := 1, cerr := log } calls).1.filter
      (fun s => s.valid_)).length ≤ 2147483646) :
    let g0 : Env := { next_id_ := 1, cerr := log }
    let ok := (construct_all g0 calls).1.filter (fun s => s.valid_)
    (∀ k, ∀ hk : k < ok.length, ok[k].id_ = (k : Int) + 1) ∧
    (∀ s ∈ ok, 0 < s.id_) ∧
    (∀ i j, ∀ hi : i < ok.length, ∀ hj : j < ok.length, i < j → ok[i].id_ < ok[j].id_) ∧
    (∀ i j, ∀ hi : i < ok.length, ∀ hj : j < ok.length, i ≠ j → ok[i].id_ ≠ ok[j].id_) ∧
    (construct_all g0 calls).2.next_id_ = 1 + (ok.length : Int) ∧
    (construct_all g0 calls).2.next_id_ ≤ 2147483647 ∧
    (∀ (g : Env) (c : CtorCall),
      ((Song.Song g c.u c.title c.artist c.duration_sec c.rating).1.valid_ = true ∧
        (Song.Song g c.u c.title c.artist c.duration_sec c.rating).1.id_ = g.next_id_ ∧
        (Song.Song g c.u c.title c.artist c.duration_sec c.rating).2.next_id_ =
          wrap_int (g.next_id_ + 1)) ∨
      ((Song.Song g c.u c.title c.artist c.duration_sec c.rating).1.valid_ = false ∧
        (Song.Song g c.u c.title c.artist c.duration_sec c.rating).2.next_id_ =
          g.next_id_)) ∧
    (∀ n : Int, -2147483648 ≤ n → n < 2147483647 → wrap_int (n + 1) = n + 1) := by
  intro g0 ok
  have hb : g0.next_id_ + (ok.length : Int) ≤ 2147483647 := by
    have h2 : (ok.length : Int) ≤ 2147483646 := by exact_mod_cast hbound
    show (1 : Int) + (ok.length : Int) ≤ 2147483647
    omega
  obtain ⟨hids, hfinal⟩ := construct_all_ids calls g0
    (by show (-2147483648 : Int) ≤ 1; omega) hb
  have hk : ∀ k, ∀ hk : k < ok.length, ok[k].id_ = (k : Int) + 1 := by
    intro k hk
    have hlen : k < (ok.map (fun s => s.id_)).length := by simpa using hk
    have h1 : (ok.map (fun s => s.id_))[k] = ok[k].id_ := by simp
    rw [← h1, List.getElem_of_eq hids]
    simp [g0]
    ring
  refine ⟨hk, ?_, ?_, ?_, hfinal, ?_, ?_, ?_⟩
  · intro s hs
    obtain ⟨k, hlt, rfl⟩ := List.getElem_of_mem hs
    rw [hk k hlt]; positivity
  · intro i j hi hj hij
    rw [hk i hi, hk j hj]; exact_mod_cast Nat.succ_lt_succ hij
  · intro i j hi hj hij
    rw [hk i hi, hk j hj]
    intro h; apply hij; exact_mod_cast (add_right_cancel h)
  · rw [hfinal]; exact hb
  · intro g c
    exact ctor_counter g c.u c.title c.artist c.duration_sec c.rating
  · intro n h1 h2
    apply wrap_int_of_range <;> omega

/-- The sample run, two successes and one failure: the counter ends at 3. -/
theorem ids_count_successes_witness :
    (construct_all { next_id_ := 1, cerr := [] } sample_run).2.next_id_ = 3 :=
  ((ids_count_successes [] sample_run (by decide)).2.2.2.2.1).trans (by decide)

/-- C2 as stated fails on a run of 2147483648 passing calls from the initial state: the
2147483648-th object (position 2147483647) is valid and its id is -2147483648, neither
2147483648 nor positive, because the `int` counter has wrapped at `INT_MAX`. -/
theorem id_wraps_at_int_max :
    ((construct_all Env.init (List.replicate 2147483648 yesterday_call)).1[2147483647]?).map
      (fun s => (s.valid_, s.id_)) = some (true, -2147483648) := by
  rw [construct_all_replicate yesterday_call (by decide) 2147483648 2147483647 Env.init 1
    (by decide) (by decide)]
  decide

/-! ## The class invariant -/

theorem ctor_inv (g : Env) (u : Indet) (title artist : Str) (duration_sec rating : Int)
    (hv : (Song.Song g u title artist duration_sec rating).1.valid_ = true) :
    class_invariant (Song.Song g u title artist duration_sec rating).1 := by
  have hc := (ctor_valid_cond g u title artist duration_sec rating).mp hv
  obtain ⟨ht, ha, hd, hr1, hr5⟩ := hc
  have hr : ¬ (rating < 1 ∨ rating > 5) := by omega
  have hd2 : ¬ duration_sec ≤ 0 := by omega
  simp [Song.Song, ht, ha, hd2, hr, Song.fresh, class_invariant, trim_copy_idem]
  omega

theorem set_title_inv (g : Env) (self : Song) (t : Str) (h : class_invariant self) :
    class_invariant (self.set_title g t).2.1 := by
  by_cases ht : trim_copy t = []
  · simpa [Song.set_title, ht] using h
  · obtain ⟨_, _, h3, h4, h5, h6, h7, h8⟩ := h
    simp [Song.set_title, ht, class_invariant, trim_copy_idem]
    exact ⟨h3, h4, h5, h6, h7, h8⟩

theorem set_artist_inv (g : Env) (self : Song) (a : Str) (h : class_invariant self) :
    class_invariant (self.set_artist g a).2.1 := by
  by_cases ha : trim_copy a = []
  · simpa [Song.set_artist, ha] using h
  · obtain ⟨h1, h2, _, _, h5, h6, h7, h8⟩ := h
    simp [Song.set_artist, ha, class_invariant, trim_copy_idem]
    exact ⟨h1, h2, h5, h6, h7, h8⟩

theorem set_duration_inv (g : Env) (self : Song) (sec : Int) (h : class_invariant self) :
    class_invariant (self.set_duration g sec).2.1 := by
  by_cases hs : sec ≤ 0
  · simpa [Song.set_duration, hs] using h
  · obtain ⟨h1, h2, h3, h4, _, h6, h7, h8⟩ := h
    simp [Song.set_duration, hs, class_invariant]
    exact ⟨h1, h2, h3, h4, by omega, h6, h7, h8⟩

theorem set_rating_inv (g : Env) (self : Song) (r : Int) (h : class_invariant self) :
    class_invariant (self.set_rating g r).2.1 := by
  by_cases hr : r < 1 ∨ r > 5
  · simpa [Song.set_rating, hr] using h
  · obtain ⟨h1, h2, h3, h4, h5, _, _, h8⟩ := h
    simp [Song.set_rating, hr, class_invariant]
    exact ⟨h1, h2, h3, h4, h5, by omega, by omega, h8⟩

theorem add_tag_inv (g : Env) (self : Song) (tag : Str) (h : class_invariant self) :
    class_invariant (self.add_tag g tag).2.1 := by
  by_cases ht : trim_copy tag = []
  · rw [add_tag_of_empty g self tag ht]; exact h
  · by_cases hdup : ∃ e ∈ self.tags_, to_lower_copy e = to_lower_copy (trim_copy tag)
    · rw [add_tag_of_dup g self tag ht hdup]; exact h
    · have hnew : ∀ e ∈ self.tags_, to_lower_copy e ≠ to_lower_copy (trim_copy tag) := by
        intro e he heq
        exact hdup ⟨e, he, heq⟩
      obtain ⟨h1, h2, h3, h4, h5, h6, h7, h8⟩ := h
      rw [add_tag_of_new g self tag ht hnew]
      refine ⟨h1, h2, h3, h4, h5, h6, h7, ?_⟩
      show ((self.tags_ ++ [trim_copy tag]).map to_lower_copy).Nodup
      rw [List.map_append, List.nodup_append]
      refine ⟨h8, by simp, ?_⟩
      intro x hx hx2
      obtain ⟨e, he, rfl⟩ := List.mem_map.mp hx
      simp at hx2
      exact hnew e he hx2

theorem remove_tag_inv (g : Env) (self : Song) (tag : Str) (h : class_invariant self) :
    class_invariant (self.remove_tag g tag).2.1 := by
  by_cases hp : ∃ e ∈ self.tags_, to_lower_copy e = to_lower_copy (trim_copy tag)
  · obtain ⟨i, _, _, _, heq⟩ := remove_tag_of_present g self tag hp
    obtain ⟨h1, h2, h3, h4, h5, h6, h7, h8⟩ := h
    rw [heq]
    exact ⟨h1, h2, h3, h4, h5, h6, h7,
      List.Nodup.sublist ((List.eraseIdx_sublist self.tags_ i).map to_lower_copy) h8⟩
  · have ha : ∀ e ∈ self.tags_, to_lower_copy e ≠ to_lower_copy (trim_copy tag) := by
      intro e he heq
      exact hp ⟨e, he, heq⟩
    rw [remove_tag_of_absent g self tag ha]; exact h

theorem run_calls_inv (calls : List Call) (g : Env) (self : Song) (h : class_invariant self) :
    class_invariant (run_calls g self calls).1 := by
  induction calls generalizing g self with
  | nil => simpa [run_calls] using h
  | cons c cs ih =>
    simp only [run_calls]
    apply ih
    cases c with
    | set_title t => exact set_title_inv g self t h
    | set_artist a => exact set_artist_inv g self a h
    | set_duration sec => exact set_duration_inv g self sec h
    | set_rating r => exact set_rating_inv g self r h
    | add_tag tag => exact add_tag_inv g self tag h
    | remove_tag tag => exact remove_tag_inv g self tag h

/-- C3: an object that the constructor reports valid, after any finite sequence of
`set_title`, `set_artist`, `set_duration`, `set_rating`, `add_tag` and `remove_tag` calls
with arbitrary arguments, has a non-empty title and artist that are their own trim, a
positive duration, a rating in 1..5, and tags that differ pairwise after lower-casing. -/
theorem reachable_invariant (g : Env) (u : Indet) (title artist : Str)
    (duration_sec rating : Int) (calls : List Call)
    (hv : (Song.Song g u title artist duration_sec rating).1.valid_ = true) :
    let c := Song.Song g u title artist duration_sec rating
    let s := (run_calls c.2 c.1 calls).1
    s.title_ ≠ [] ∧ trim_copy s.title_ = s.title_ ∧
    s.artist_ ≠ [] ∧ trim_copy s.artist_ = s.artist_ ∧
    0 < s.duration_sec_ ∧ 1 ≤ s.rating_ ∧ s.rating_ ≤ 5 ∧
    ∀ i j, ∀ hi : i < s.tags_.length, ∀ hj : j < s.tags_.length, i ≠ j →
      to_lower_copy s.tags_[i] ≠ to_lower_copy s.tags_[j] := by
  intro c s
  obtain ⟨h1, h2, h3, h4, h5, h6, h7, h8⟩ :=
    run_calls_inv calls c.2 c.1 (ctor_inv g u title artist duration_sec rating hv)
  refine ⟨h1, h2, h3, h4, h5, h6, h7, ?_⟩
  intro i j hi hj hij heq
  have hi2 : i < (s.tags_.map to_lower_copy).length := by simpa using hi
  have hj2 : j < (s.tags_.map to_lower_copy).length := by simpa using hj
  have hmap : (s.tags_.map to_lower_copy)[i] = (s.tags_.map to_lower_copy)[j] := by
    simpa using heq
  exact hij ((List.Nodup.getElem_inj_iff h8).mp hmap)

/-- The invariant after a mixed run of accepted and rejected calls on the example object:
the object is valid and its duration is still positive. -/
theorem reachable_invariant_witness :
    construct_yesterday.1.valid_ = true ∧
    0 < (run_calls construct_yesterday.2 construct_yesterday.1
      [Call.add_tag "Rock".toList, Call.add_tag " rock ".toList, Call.set_title " ".toList,
        Call.set_rating 9, Call.remove_tag "pop".toList, Call.set_duration 200]).1.duration_sec_ :=
  ⟨by decide,
    (reachable_invariant Env.init ⟨0, 0, 0, false⟩ "  Yesterday ".toList "The Beatles".toList
      125 5 _ (by decide)).2.2.2.2.1⟩

/-! ## Tags -/

/-- C4: `add_tag(tag)` returns true exactly when the trimmed tag is non-empty and no stored
tag has the lower-cased form of the trimmed tag; on true the tags are the old ones followed
by the trimmed tag in its original case, on false they are the old ones. -/
theorem add_tag_spec (g : Env) (self : Song) (tag : Str) :
    ((self.add_tag g tag).1 = true ↔
      (trim_copy tag ≠ [] ∧
        ∀ e ∈ self.tags_, to_lower_copy e ≠ to_lower_copy (trim_copy tag))) ∧
    ((self.add_tag g tag).1 = true →
      (self.add_tag g tag).2.1.tags_ = self.tags_ ++ [trim_copy tag]) ∧
    ((self.add_tag g tag).1 = false → (self.add_tag g tag).2.1.tags_ = self.tags_) := by
  refine ⟨add_tag_true_iff g self tag, ?_, ?_⟩
  · intro h
    obtain ⟨ht, hnew⟩ := (add_tag_true_iff g self tag).mp h
    rw [add_tag_of_new g self tag ht hnew]
  · intro h
    by_cases ht : trim_copy tag = []
    · rw [add_tag_of_empty g self tag ht]
    · by_cases hdup : ∃ e ∈ self.tags_, to_lower_copy e = to_lower_copy (trim_copy tag)
      · rw [add_tag_of_dup g self tag ht hdup]
      · have hnew : ∀ e ∈ self.tags_, to_lower_copy e ≠ to_lower_copy (trim_copy tag) :=
          fun e he heq => hdup ⟨e, he, heq⟩
        rw [add_tag_of_new g self tag ht hnew] at h
        exact absurd h (by simp)

/-- An accepted tag is appended trimmed, a case-insensitive duplicate changes nothing. -/
theorem add_tag_spec_witness :
    (yesterday.add_tag Env.init "  Rock ".toList).2.1.tags_ =
      yesterday.tags_ ++ [trim_copy "  Rock ".toList] ∧
    (({ yesterday with tags_ := ["Rock".toList] } : Song).add_tag Env.init
      "rOCK".toList).2.1.tags_ = ["Rock".toList] :=
  ⟨(add_tag_spec Env.init yesterday "  Rock ".toList).2.1 (by decide),
    (add_tag_spec Env.init { yesterday with tags_ := ["Rock".toList] } "rOCK".toList).2.2
      (by decide)⟩

/-- C5: when `t` and `t1` have the same trimmed lower-cased form and `add_tag(t)` returns
true, the following `add_tag(t1)` returns false and leaves the object as the first call
left it: the tags are the old ones followed by the trim of `t`, in the casing of `t`. -/
theorem add_tag_case_idempotent (g : Env) (self : Song) (t t1 : Str)
    (hsame : to_lower_copy (trim_copy t) = to_lower_copy (trim_copy t1))
    (hfirst : (self.add_tag g t).1 = true) :
    ((self.add_tag g t).2.1.add_tag (self.add_tag g t).2.2 t1).1 = false ∧
    ((self.add_tag g t).2.1.add_tag (self.add_tag g t).2.2 t1).2.1 = (self.add_tag g t).2.1 ∧
    ((self.add_tag g t).2.1.add_tag (self.add_tag g t).2.2 t1).2.1.tags_ =
      self.tags_ ++ [trim_copy t] := by
  obtain ⟨ht, hnew⟩ := (add_tag_true_iff g self t).mp hfirst
  have htags : (self.add_tag g t).2.1.tags_ = self.tags_ ++ [trim_copy t] := by
    rw [add_tag_of_new g self t ht hnew]
  by_cases ht1 : trim_copy t1 = []
  · rw [add_tag_of_empty _ _ t1 ht1]
    exact ⟨rfl, rfl, htags⟩
  · have hdup : ∃ e ∈ (self.add_tag g t).2.1.tags_,
        to_lower_copy e = to_lower_copy (trim_copy t1) :=
      ⟨trim_copy t, by rw [htags]; simp, hsame⟩
    rw [add_tag_of_dup _ _ t1 ht1 hdup]
    exact ⟨rfl, rfl, htags⟩

/-- Adding "Rock" and then "rock" to an object without tags leaves the one tag "Rock". -/
theorem add_tag_case_idempotent_witness :
    yesterday.tags_ = [] ∧
    ((yesterday.add_tag Env.init "Rock".toList).2.1.add_tag
      (yesterday.add_tag Env.init "Rock".toList).2.2 "rock".toList).1 = false ∧
    ((yesterday.add_tag Env.init "Rock".toList).2.1.add_tag
      (yesterday.add_tag Env.init "Rock".toList).2.2 "rock".toList).2.1.tags_ =
      ["Rock".toList] :=
  ⟨by decide,
    (add_tag_case_idempotent Env.init yesterday "Rock".toList "rock".toList
      (by decide) (by decide)).1,
    (add_tag_case_idempotent Env.init yesterday "Rock".toList "rock".toList
      (by decide) (by decide)).2.2⟩

/-- C6: when no stored tag has the lower-cased form of the trimmed argument,
`remove_tag` returns false and leaves the tag sequence (indeed the whole object) as it
was. -/
theorem remove_tag_absent (g : Env) (self : Song) (tag : Str)
    (habs : ∀ e ∈ self.tags_, to_lower_copy e ≠ to_lower_copy (trim_copy tag)) :
    (self.remove_tag g tag).1 = false ∧
    (self.remove_tag g tag).2.1.tags_ = self.tags_ ∧
    (self.remove_tag g tag).2.1 = self := by
  rw [remove_tag_of_absent g self tag habs]
  exact ⟨rfl, rfl, rfl⟩

/-- Removing "jazz" from the tags "Rock", "Pop" fails and keeps both. -/
theorem remove_tag_absent_witness :
    (({ yesterday with tags_ := ["Rock".toList, "Pop".toList] } : Song).remove_tag Env.init
      " jazz".toList).1 = false ∧
    (({ yesterday with tags_ := ["Rock".toList, "Pop".toList] } : Song).remove_tag Env.init
      " jazz".toList).2.1.tags_ = ["Rock".toList, "Pop".toList] :=
  ⟨(remove_tag_absent Env.init { yesterday with tags_ := ["Rock".toList, "Pop".toList] }
      " jazz".toList (by decide)).1,
    (remove_tag_absent Env.init { yesterday with tags_ := ["Rock".toList, "Pop".toList] }
      " jazz".toList (by decide)).2.1⟩

/-- C7: when some stored tag has the lower-cased form of the trimmed argument,
`remove_tag` returns true and deletes the entry at the least index `i` at which this is
so: the new sequence is the entries before `i` followed by the entries after `i`, one
entry shorter, everything else in place. -/
theorem remove_tag_first_match (g : Env) (self : Song) (tag : Str)
    (hpres : ∃ e ∈ self.tags_, to_lower_copy e = to_lower_copy (trim_copy tag)) :
    (self.remove_tag g tag).1 = true ∧
    ∃ i, ∃ hi : i < self.tags_.length,
      to_lower_copy self.tags_[i] = to_lower_copy (trim_copy tag) ∧
      (∀ j, ∀ hj : j < self.tags_.length, j < i →
        to_lower_copy self.tags_[j] ≠ to_lower_copy (trim_copy tag)) ∧
      (self.remove_tag g tag).2.1.tags_ = self.tags_.take i ++ self.tags_.drop (i + 1) ∧
      (self.remove_tag g tag).2.1.tags_.length + 1 = self.tags_.length := by
  obtain ⟨i, hi, hmatch, hbefore, heq⟩ := remove_tag_of_present g self tag hpres
  rw [heq]
  refine ⟨rfl, i, hi, hmatch, hbefore, ?_, ?_⟩
  · exact List.eraseIdx_eq_take_drop_succ _ _
  · show (self.tags_.eraseIdx i).length + 1 = self.tags_.length
    rw [List.length_eraseIdx, if_pos hi]
    omega

/-- Removing " ROCK " from the tags "Pop", "Rock", "rock" succeeds. -/
theorem remove_tag_first_match_witness :
    (({ yesterday with tags_ := ["Pop".toList, "Rock".toList, "rock".toList] } : Song).remove_tag
      Env.init " ROCK ".toList).1 = true :=
  (remove_tag_first_match Env.init
    { yesterday with tags_ := ["Pop".toList, "Rock".toList, "rock".toList] } " ROCK ".toList
    ⟨"Rock".toList, by decide, by decide⟩).1

/-! ## Setters -/

/-- C8: a setter whose argument fails its check returns false and leaves the object, all
seven members, and the id counter as they were: `set_title` and `set_artist` on a string
that is empty or consists of whitespace only, `set_duration` on `sec ≤ 0`, `set_rating`
on `r < 1` or `r > 5`. -/
theorem setters_reject_unchanged (g : Env) (self : Song) (t a : Str) (sec r : Int) :
    ((∀ c ∈ t, c ∈ ws) →
      (self.set_title g t).1 = false ∧ (self.set_title g t).2.1 = self ∧
        (self.set_title g t).2.2.next_id_ = g.next_id_) ∧
    ((∀ c ∈ a, c ∈ ws) →
      (self.set_artist g a).1 = false ∧ (self.set_artist g a).2.1 = self ∧
        (self.set_artist g a).2.2.next_id_ = g.next_id_) ∧
    (sec ≤ 0 →
      (self.set_duration g sec).1 = false ∧ (self.set_duration g sec).2.1 = self ∧
        (self.set_duration g sec).2.2.next_id_ = g.next_id_) ∧
    ((r < 1 ∨ 5 < r) →
      (self.set_rating g r).1 = false ∧ (self.set_rating g r).2.1 = self ∧
        (self.set_rating g r).2.2.next_id_ = g.next_id_) := by
  refine ⟨?_, ?_, ?_, ?_⟩
  · intro h
    have ht := (trim_copy_eq_nil_iff t).mpr h
    simp [Song.set_title, ht, Env.emit]
  · intro h
    have ha := (trim_copy_eq_nil_iff a).mpr h
    simp [Song.set_artist, ha, Env.emit]
  · intro h
    simp [Song.set_duration, h, Env.emit]
  · intro h
    have h2 : r < 1 ∨ r > 5 := h
    simp [Song.set_rating, h2, Env.emit]

/-- Each of the four setters rejecting an argument on the example object. -/
theorem setters_reject_unchanged_witness :
    (yesterday.set_title Env.init " \t ".toList).2.1 = yesterday ∧
    (yesterday.set_artist Env.init [] ).2.1 = yesterday ∧
    (yesterday.set_duration Env.init 0).2.1 = yesterday ∧
    (yesterday.set_rating Env.init 6).2.1 = yesterday :=
  ⟨((setters_reject_unchanged Env.init yesterday " \t ".toList [] 0 6).1 (by decide)).2.1,
    ((setters_reject_unchanged Env.init yesterday " \t ".toList [] 0 6).2.1 (by decide)).2.1,
    ((setters_reject_unchanged Env.init yesterday " \t ".toList [] 0 6).2.2.1 (by decide)).2.1,
    ((setters_reject_unchanged Env.init yesterday " \t ".toList [] 0 6).2.2.2 (by decide)).2.1⟩

theorem call_run_id_valid (g : Env) (self : Song) (c : Call) :
    (c.run g self).2.1.id_ = self.id_ ∧ (c.run g self).2.1.valid_ = self.valid_ := by
  cases c with
  | set_title t => by_cases h : trim_copy t = [] <;> simp [Call.run, Song.set_title, h]
  | set_artist a => by_cases h : trim_copy a = [] <;> simp [Call.run, Song.set_artist, h]
  | set_duration sec => by_cases h : sec ≤ 0 <;> simp [Call.run, Song.set_duration, h]
  | set_rating r => by_cases h : r < 1 ∨ r > 5 <;> simp [Call.run, Song.set_rating, h]
  | add_tag tag =>
    by_cases ht : trim_copy tag = []
    · simp [Call.run, add_tag_of_empty g self tag ht]
    · by_cases hdup : ∃ e ∈ self.tags_, to_lower_copy e = to_lower_copy (trim_copy tag)
      · simp [Call.run, add_tag_of_dup g self tag ht hdup]
      · have hnew : ∀ e ∈ self.tags_, to_lower_copy e ≠ to_lower_copy (trim_copy tag) :=
          fun e he heq => hdup ⟨e, he, heq⟩
        simp [Call.run, add_tag_of_new g self tag ht hnew]
  | remove_tag tag =>
    by_cases hp : ∃ e ∈ self.tags_, to_lower_copy e = to_lower_copy (trim_copy tag)
    · obtain ⟨i, _, _, _, heq⟩ := remove_tag_of_present g self tag hp
      simp [Call.run, heq]
    · have ha : ∀ e ∈ self.tags_, to_lower_copy e ≠ to_lower_copy (trim_copy tag) :=
        fun e he heq => hp ⟨e, he, heq⟩
      simp [Call.run, remove_tag_of_absent g self tag ha]

theorem run_calls_id_valid (calls : List Call) (g : Env) (self : Song) :
    (run_calls g self calls).1.id_ = self.id_ ∧
    (run_calls g self calls).1.valid_ = self.valid_ := by
  induction calls generalizing g self with
  | nil => simp [run_calls]
  | cons c cs ih =>
    obtain ⟨h1, h2⟩ := call_run_id_valid g self c
    obtain ⟨h3, h4⟩ := ih (c.run g self).2.2 (c.run g self).2.1
    simp only [run_calls]
    exact ⟨h3.trans h1, h4.trans h2⟩

/-- C9: a setter whose argument passes its check returns true and replaces exactly its own
member, by the trimmed string for `set_title` and `set_artist` and by the integer as given
for `set_duration` and `set_rating`; every other member, the counter and `std::cerr` stay as
they were.  No setter and no tag operation, accepted or rejected, alone or in sequence,
changes `id_` or `valid_`. -/
theorem setters_accept_frame (g : Env) (self : Song) (t a : Str) (sec r : Int) :
    (trim_copy t ≠ [] →
      self.set_title g t = (true, { self with title_ := trim_copy t }, g)) ∧
    (trim_copy a ≠ [] →
      self.set_artist g a = (true, { self with artist_ := trim_copy a }, g)) ∧
    (0 < sec →
      self.set_duration g sec = (true, { self with duration_sec_ := sec }, g)) ∧
    ((1 ≤ r ∧ r ≤ 5) →
      self.set_rating g r = (true, { self with rating_ := r }, g)) ∧
    (∀ c : Call, (c.run g self).2.1.id_ = self.id_ ∧ (c.run g self).2.1.valid_ = self.valid_) ∧
    (∀ calls : List Call, (run_calls g self calls).1.id_ = self.id_ ∧
      (run_calls g self calls).1.valid_ = self.valid_) := by
  refine ⟨?_, ?_, ?_, ?_, call_run_id_valid g self, fun calls => run_calls_id_valid calls g self⟩
  · intro h
    simp [Song.set_title, h]
  · intro h
    simp [Song.set_artist, h]
  · intro h
    have h2 : ¬ sec ≤ 0 := by omega
    simp [Song.set_duration, h2]
  · intro h
    have h2 : ¬ (r < 1 ∨ r > 5) := by omega
    simp [Song.set_rating, h2]

/-- Each of the four setters accepting an argument on the example object. -/
theorem setters_accept_frame_witness :
    yesterday.set_title Env.init " Help! ".toList =
      (true, { yesterday with title_ := "Help!".toList }, Env.init) ∧
    yesterday.set_artist Env.init "Beatles\n".toList =
      (true, { yesterday with artist_ := "Beatles".toList }, Env.init) ∧
    yesterday.set_duration Env.init 140 =
      (true, { yesterday with duration_sec_ := 140 }, Env.init) ∧
    yesterday.set_rating Env.init 1 =
      (true, { yesterday with rating_ := 1 }, Env.init) :=
  ⟨(setters_accept_frame Env.init yesterday " Help! ".toList "Beatles\n".toList 140 1).1
      (by decide),
    (setters_accept_frame Env.init yesterday " Help! ".toList "Beatles\n".toList 140 1).2.1
      (by decide),
    (setters_accept_frame Env.init yesterday " Help! ".toList "Beatles\n".toList 140 1).2.2.1
      (by decide),
    (setters_accept_frame Env.init yesterday " Help! ".toList "Beatles\n".toList 140 1).2.2.2.1
      (by decide)⟩

/-! ## Keyword search -/

/-- C10: `matches_keyword(kw)` is false when the trimmed keyword is empty; otherwise it is
true exactly when the lower-cased trimmed keyword is a contiguous part of the lower-cased
title, of the lower-cased artist, or of some lower-cased tag.  The call returns the object
and the environment (`std::cerr` included) unchanged. -/
theorem matches_keyword_spec (g : Env) (self : Song) (kw : Str) :
    (trim_copy kw = [] → (self.matches_keyword g kw).1 = false) ∧
    (trim_copy kw ≠ [] →
      ((self.matches_keyword g kw).1 = true ↔
        (to_lower_copy (trim_copy kw) <:+: to_lower_copy self.title_ ∨
          to_lower_copy (trim_copy kw) <:+: to_lower_copy self.artist_ ∨
          ∃ t ∈ self.tags_, to_lower_copy (trim_copy kw) <:+: to_lower_copy t))) ∧
    (self.matches_keyword g kw).2.1 = self ∧
    (self.matches_keyword g kw).2.2 = g := by
  have hframe : (self.matches_keyword g kw).2.1 = self ∧ (self.matches_keyword g kw).2.2 = g := by
    simp only [Song.matches_keyword]
    split_ifs <;> exact ⟨rfl, rfl⟩
  refine ⟨?_, ?_, hframe.1, hframe.2⟩
  · intro h
    simp [Song.matches_keyword, h]
  · intro h
    have he : (trim_copy kw).isEmpty = false := by
      cases hk : trim_copy kw with
      | nil => exact absurd hk h
      | cons _ _ => rfl
    simp only [Song.matches_keyword, he, Bool.false_eq_true, if_false]
    rw [← find_isSome_iff, ← find_isSome_iff, ← matches_keyword_scan_iff]
    split_ifs <;> simp_all

/-- A whitespace keyword matches nothing; " BEAT " is found in the artist of the example. -/
theorem matches_keyword_spec_witness :
    (yesterday.matches_keyword Env.init " \n".toList).1 = false ∧
    ((yesterday.matches_keyword Env.init " BEAT ".toList).1 = true ↔
      (to_lower_copy (trim_copy " BEAT ".toList) <:+: to_lower_copy yesterday.title_ ∨
        to_lower_copy (trim_copy " BEAT ".toList) <:+: to_lower_copy yesterday.artist_ ∨
        ∃ t ∈ yesterday.tags_,
          to_lower_copy (trim_copy " BEAT ".toList) <:+: to_lower_copy t)) :=
  ⟨(matches_keyword_spec Env.init yesterday " \n".toList).1 (by decide),
    (matches_keyword_spec Env.init yesterday " BEAT ".toList).2.1 (by decide)⟩

/-! ## Lower-casing and trimming -/

theorem mem_ws_iff (c : Char) : c ∈ ws ↔ (c.toNat = 32 ∨ c.toNat = 9 ∨ c.toNat = 10 ∨ c.toNat = 13) := by
  have key : ∀ d : Char, c = d ↔ c.toNat = d.toNat := by
    intro d
    constructor
    · intro h; rw [h]
    · intro h
      apply Char.ext
      apply UInt32.ext
      exact h
  simp only [ws, List.mem_cons, List.mem_singleton, List.not_mem_nil, or_false, key]
  rfl

theorem toNat_toLower_upper (c : Char) (h : 65 ≤ c.toNat ∧ c.toNat ≤ 90) :
    c.toLower.toNat = c.toNat + 32 := by
  have h1 : c.toLower = Char.ofNat (c.toNat + 32) := by
    simp [Char.toLower, h.1, h.2]
  rw [h1]
  generalize c.toNat = n at h
  obtain ⟨h1, h2⟩ := h
  interval_cases n <;> rfl

theorem isWs_toLower (c : Char) : isWs c.toLower = isWs c := by
  by_cases h : 65 ≤ c.toNat ∧ c.toNat ≤ 90
  · have h1 := toNat_toLower_upper c h
    have h2 : ¬ c ∈ ws := by rw [mem_ws_iff]; omega
    have h3 : ¬ c.toLower ∈ ws := by rw [mem_ws_iff]; omega
    simp [isWs, h2, h3]
  · have h1 : c.toLower = c := by
      simp only [Char.toLower]
      rw [if_neg]
      simpa using h
    rw [h1]

theorem rdropWhile_map {α β : Type} (f : α → β) (p : β → Bool) (l : List α) :
    (l.map f).rdropWhile p = (l.rdropWhile (p ∘ f)).map f := by
  simp only [List.rdropWhile, ← List.map_reverse, List.dropWhile_map]

/-- Lower-casing neither creates nor removes whitespace, so it commutes with trimming. -/
theorem to_lower_copy_trim_copy (s : Str) :
    to_lower_copy (trim_copy s) = trim_copy (to_lower_copy s) := by
  have hcomp : isWs ∘ Char.toLower = isWs := funext isWs_toLower
  rw [trim_copy_eq, trim_copy_eq]
  simp only [to_lower_copy]
  rw [List.dropWhile_map, rdropWhile_map, hcomp]

theorem to_lower_copy_eq_nil_iff (s : Str) : to_lower_copy s = [] ↔ s = [] := by
  simp [to_lower_copy]

/-- The result of `matches_keyword` in one formula. -/
theorem matches_keyword_true_iff (g : Env) (self : Song) (kw : Str) :
    (self.matches_keyword g kw).1 = true ↔
      (to_lower_copy (trim_copy kw) ≠ [] ∧
        (to_lower_copy (trim_copy kw) <:+: to_lower_copy self.title_ ∨
          to_lower_copy (trim_copy kw) <:+: to_lower_copy self.artist_ ∨
          ∃ x ∈ self.tags_.map to_lower_copy, to_lower_copy (trim_copy kw) <:+: x)) := by
  rw [Ne, to_lower_copy_eq_nil_iff]
  by_cases h : trim_copy kw = []
  · simp [Song.matches_keyword, h]
  · have he : (trim_copy kw).isEmpty = false := by
      cases hk : trim_copy kw with
      | nil => exact absurd hk h
      | cons _ _ => rfl
    simp only [Song.matches_keyword, he, Bool.false_eq_true, if_false, List.mem_map,
      exists_exists_and_eq_and]
    rw [← find_isSome_iff, ← find_isSome_iff, ← matches_keyword_scan_iff]
    split_ifs <;> simp_all

/-- C11: `matches_keyword` is case-insensitive in both directions.  Two keywords with the
same lower-cased form give the same answer on every object; two objects whose titles,
artists and tag sequences agree after lower-casing give the same answer on every
keyword. -/
theorem matches_keyword_case_insensitive (g g1 : Env) (self other : Song) (k1 k2 kw : Str) :
    (to_lower_copy k1 = to_lower_copy k2 →
      (self.matches_keyword g k1).1 = (self.matches_keyword g1 k2).1) ∧
    (to_lower_copy self.title_ = to_lower_copy other.title_ →
      to_lower_copy self.artist_ = to_lower_copy other.artist_ →
      self.tags_.map to_lower_copy = other.tags_.map to_lower_copy →
      (self.matches_keyword g kw).1 = (other.matches_keyword g1 kw).1) := by
  constructor
  · intro h
    have hk : to_lower_copy (trim_copy k1) = to_lower_copy (trim_copy k2) := by
      rw [to_lower_copy_trim_copy, to_lower_copy_trim_copy, h]
    rw [Bool.eq_iff_iff, matches_keyword_true_iff, matches_keyword_true_iff, hk]
  · intro ht ha htags
    rw [Bool.eq_iff_iff, matches_keyword_true_iff, matches_keyword_true_iff, ht, ha, htags]

/-- The keywords "BEATLES" and "beatles" on the example object, and the example object
against a copy with an upper-cased title, searched for " Yester". -/
theorem matches_keyword_case_insensitive_witness :
    (yesterday.matches_keyword Env.init "BEATLES".toList).1 =
      (yesterday.matches_keyword Env.init "beatles".toList).1 ∧
    (yesterday.matches_keyword Env.init " Yester".toList).1 =
      (({ yesterday with title_ := "YESTERDAY".toList } : Song).matches_keyword Env.init
        " Yester".toList).1 :=
  ⟨(matches_keyword_case_insensitive Env.init Env.init yesterday yesterday
      "BEATLES".toList "beatles".toList []).1 (by decide),
    (matches_keyword_case_insensitive Env.init Env.init yesterday
      { yesterday with title_ := "YESTERDAY".toList } [] [] " Yester".toList).2
      (by decide) (by decide) (by decide)⟩

/-! ## Ordering -/

/-- The comparison of `std::string`s is the lexicographic order over the order of the
characters. -/
theorem string_lt_iff_lex : ∀ (a b : Str), string_lt a b = true ↔ List.Lex (· < ·) a b
  | [], [] => by simp [string_lt, List.Lex.not_nil_right]
  | [], _ :: _ => by simp [string_lt, List.Lex.nil]
  | _ :: _, [] => by simp [string_lt, List.Lex.not_nil_right]
  | x :: xs, y :: ys => by
    rw [string_lt]
    rcases lt_trichotomy x y with h | h | h
    · simp [h, List.Lex.rel h]
    · subst h
      simp [List.Lex.cons_iff, string_lt_iff_lex xs ys]
    · have hn : ¬ x < y := not_lt_of_gt h
      simp only [hn, h, if_true, if_false, Bool.false_eq_true, false_iff]
      intro hl
      cases hl with
      | cons _ => exact lt_irrefl _ h
      | rel h2 => exact hn h2

/-- The three-key comparison in one formula. -/
theorem operator_lt_iff (a b : Song) :
    operator_lt a b = true ↔
      (b.rating_ < a.rating_ ∨
        (a.rating_ = b.rating_ ∧ List.Lex (· < ·) a.title_ b.title_) ∨
        (a.rating_ = b.rating_ ∧ a.title_ = b.title_ ∧ a.id_ < b.id_)) := by
  unfold operator_lt
  by_cases hr : a.rating_ = b.rating_
  · by_cases ht : a.title_ = b.title_
    · have hirr : ¬ List.Lex (· < ·) b.title_ b.title_ := irrefl_of (List.Lex (· < ·)) _
      simp [hr, ht, hirr]
    · simp [hr, ht, string_lt_iff_lex]
  · simp [hr]

/-- C12: `a < b` holds exactly when `a` has the higher rating, or the ratings are equal
and the title of `a` is lexicographically smaller, or ratings and titles are equal and
`a` has the smaller id. -/
theorem operator_lt_spec (a b : Song) :
    operator_lt a b = true ↔
      (a.rating_ > b.rating_ ∨
        (a.rating_ = b.rating_ ∧ List.Lex (· < ·) a.title_ b.title_) ∨
        (a.rating_ = b.rating_ ∧ a.title_ = b.title_ ∧ a.id_ < b.id_)) :=
  operator_lt_iff a b

/-- Ratings 3, 5, 5 and 5: each 5-rated object precedes the 3-rated one; among the 5-rated
ones "Help" precedes "Yesterday", and of the two "Yesterday" the one with id 3 precedes the
one with id 4. -/
theorem operator_lt_spec_witness :
    operator_lt (sample 2 "Yesterday" 5) (sample 1 "Abbey Road" 3) = true ∧
    operator_lt (sample 3 "Help" 5) (sample 1 "Abbey Road" 3) = true ∧
    operator_lt (sample 1 "Abbey Road" 3) (sample 2 "Yesterday" 5) = false ∧
    operator_lt (sample 4 "Help" 5) (sample 3 "Yesterday" 5) = true ∧
    operator_lt (sample 3 "Yesterday" 5) (sample 4 "Yesterday" 5) = true :=
  ⟨(operator_lt_spec _ _).mpr (by decide),
    (operator_lt_spec _ _).mpr (by decide),
    Bool.eq_false_iff.mpr (fun h => absurd ((operator_lt_spec _ _).mp h) (by decide)),
    (operator_lt_spec _ _).mpr (by decide),
    (operator_lt_spec _ _).mpr (by decide)⟩

theorem operator_lt_trans (a b c : Song) (hab : operator_lt a b = true)
    (hbc : operator_lt b c = true) : operator_lt a c = true := by
  rw [operator_lt_iff] at hab hbc ⊢
  rcases hab with h | ⟨h1, h2⟩ | ⟨h1, h2, h3⟩
  · rcases hbc with k | ⟨k1, _⟩ | ⟨k1, _, _⟩
    · exact Or.inl (by omega)
    · exact Or.inl (by omega)
    · exact Or.inl (by omega)
  · rcases hbc with k | ⟨k1, k2⟩ | ⟨k1, k2, _⟩
    · exact Or.inl (by omega)
    · exact Or.inr (Or.inl ⟨by omega, trans_of (List.Lex (· < ·)) h2 k2⟩)
    · exact Or.inr (Or.inl ⟨by omega, k2 ▸ h2⟩)
  · rcases hbc with k | ⟨k1, k2⟩ | ⟨k1, k2, k3⟩
    · exact Or.inl (by omega)
    · exact Or.inr (Or.inl ⟨by omega, h2 ▸ k2⟩)
    · exact Or.inr (Or.inr ⟨by omega, h2.trans k2, by omega⟩)

theorem operator_lt_asymm (a b : Song) (hab : operator_lt a b = true) :
    operator_lt b a = false := by
  rw [Bool.eq_false_iff]
  intro hba
  rw [operator_lt_iff] at hab hba
  have hirr : ∀ t : Str, ¬ List.Lex (· < ·) t t := fun t => irrefl_of (List.Lex (· < ·)) t
  rcases hab with h | ⟨h1, h2⟩ | ⟨h1, h2, h3⟩
  · rcases hba with k | ⟨k1, _⟩ | ⟨k1, _, _⟩ <;> omega
  · rcases hba with k | ⟨k1, k2⟩ | ⟨k1, k2, _⟩
    · omega
    · exact asymm_of (List.Lex (· < ·)) h2 k2
    · rw [k2] at h2; exact hirr _ h2
  · rcases hba with k | ⟨k1, k2⟩ | ⟨k1, k2, k3⟩
    · omega
    · rw [h2] at k2; exact hirr _ k2
    · omega

/-- Neither precedes the other exactly when the three keys agree. -/
theorem operator_lt_incomparable_iff (a b : Song) :
    (operator_lt a b = false ∧ operator_lt b a = false) ↔
      (a.rating_ = b.rating_ ∧ a.title_ = b.title_ ∧ a.id_ = b.id_) := by
  have hirr : ∀ t : Str, ¬ List.Lex (· < ·) t t := fun t => irrefl_of (List.Lex (· < ·)) t
  rw [Bool.eq_false_iff, Bool.eq_false_iff, Ne, Ne, operator_lt_iff, operator_lt_iff]
  constructor
  · rintro ⟨hab, hba⟩
    have hr : a.rating_ = b.rating_ := by
      by_contra hne
      rcases lt_or_gt_of_ne hne with h | h
      · exact hba (Or.inl h)
      · exact hab (Or.inl h)
    have ht : a.title_ = b.title_ := by
      have htri : List.Lex (· < ·) a.title_ b.title_ ∨ a.title_ = b.title_ ∨
          List.Lex (· < ·) b.title_ a.title_ :=
        trichotomous_of (List.Lex (fun (x y : Char) => x < y)) a.title_ b.title_
      rcases htri with h | h | h
      · exact absurd (Or.inr (Or.inl ⟨hr, h⟩)) hab
      · exact h
      · exact absurd (Or.inr (Or.inl ⟨hr.symm, h⟩)) hba
    have hi : a.id_ = b.id_ := by
      by_contra hne
      rcases lt_or_gt_of_ne hne with h | h
      · exact hab (Or.inr (Or.inr ⟨hr, ht, h⟩))
      · exact hba (Or.inr (Or.inr ⟨hr.symm, ht.symm, h⟩))
    exact ⟨hr, ht, hi⟩
  · rintro ⟨hr, ht, hi⟩
    constructor
    · rintro (h | ⟨_, h⟩ | ⟨_, _, h⟩)
      · omega
      · rw [ht] at h; exact hirr _ h
      · omega
    · rintro (h | ⟨_, h⟩ | ⟨_, _, h⟩)
      · omega
      · rw [ht] at h; exact hirr _ h
      · omega

/-- C13: `operator<` is a strict weak ordering on all `Song` values: no object precedes
itself; precedence is transitive; if `a` precedes `b` then `b` does not precede `a`; and
being incomparable (neither precedes the other) is transitive. -/
theorem operator_lt_strict_weak (a b c : Song) :
    operator_lt a a = false ∧
    (operator_lt a b = true → operator_lt b c = true → operator_lt a c = true) ∧
    (operator_lt a b = true → operator_lt b a = false) ∧
    ((operator_lt a b = false ∧ operator_lt b a = false) →
      (operator_lt b c = false ∧ operator_lt c b = false) →
      (operator_lt a c = false ∧ operator_lt c a = false)) := by
  refine ⟨?_, operator_lt_trans a b c, operator_lt_asymm a b, ?_⟩
  · exact ((operator_lt_incomparable_iff a a).mpr ⟨rfl, rfl, rfl⟩).1
  · intro hab hbc
    obtain ⟨h1, h2, h3⟩ := (operator_lt_incomparable_iff a b).mp hab
    obtain ⟨k1, k2, k3⟩ := (operator_lt_incomparable_iff b c).mp hbc
    exact (operator_lt_incomparable_iff a c).mpr ⟨h1.trans k1, h2.trans k2, h3.trans k3⟩

/-- A chain of three objects, and three objects that agree in rating, title and id but
differ in duration. -/
theorem operator_lt_strict_weak_witness :
    operator_lt (sample 3 "Help" 5) (sample 1 "Abbey Road" 3) = true ∧
    operator_lt (sample 2 "Yesterday" 5) (sample 3 "Help" 5) = false ∧
    (operator_lt (sample 1 "Help" 5) ({ sample 1 "Help" 5 with duration_sec_ := 7 } : Song)
        = false ∧
      operator_lt ({ sample 1 "Help" 5 with duration_sec_ := 7 } : Song) (sample 1 "Help" 5)
        = false) :=
  ⟨(operator_lt_strict_weak (sample 3 "Help" 5) (sample 2 "Yesterday" 5)
      (sample 1 "Abbey Road" 3)).2.1 (by decide) (by decide),
    (operator_lt_strict_weak (sample 3 "Help" 5) (sample 2 "Yesterday" 5)
      (sample 1 "Abbey Road" 3)).2.2.1 (by decide),
    (operator_lt_strict_weak (sample 1 "Help" 5) { sample 1 "Help" 5 with duration_sec_ := 9 }
      { sample 1 "Help" 5 with duration_sec_ := 7 }).2.2.2 (by decide) (by decide)⟩

/-! ## Distinct constructions -/

theorem pairwise_of_filter {α : Type} (p : α → Bool) (R : α → α → Prop) (l : List α)
    (h : (l.filter p).Pairwise R) :
    l.Pairwise (fun x y => p x = true → p y = true → R x y) := by
  induction l with
  | nil => exact List.Pairwise.nil
  | cons a l ih =>
    by_cases ha : p a = true
    · rw [List.filter_cons_of_pos ha, List.pairwise_cons] at h
      rw [List.pairwise_cons]
      refine ⟨?_, ih h.2⟩
      intro y hy _ hpy
      exact h.1 y (List.mem_filter.mpr ⟨hy, hpy⟩)
    · rw [List.filter_cons_of_neg ha] at h
      rw [List.pairwise_cons]
      refine ⟨?_, ih h⟩
      intro y _ hpa
      exact absurd hpa ha

/-- While the counter does not overflow: of two valid objects of one run of constructions,
the one constructed later has the greater id. -/
theorem construct_all_pairwise (calls : List CtorCall) (g : Env)
    (hlo : -2147483648 ≤ g.next_id_)
    (hb : g.next_id_ + (((construct_all g calls).1.filter (fun s => s.valid_)).length : Int) ≤
      2147483647) :
    (construct_all g calls).1.Pairwise
      (fun x y => x.valid_ = true → y.valid_ = true → x.id_ < y.id_) := by
  obtain ⟨hids, _⟩ := construct_all_ids calls g hlo hb
  have h1 : (((construct_all g calls).1.filter (fun s => s.valid_)).map
      (fun s => s.id_)).Pairwise (· < ·) := by
    rw [hids, List.pairwise_map]
    refine (List.pairwise_lt_range _).imp ?_
    intro a b hab
    have h2 : (a : Int) < (b : Int) := by exact_mod_cast hab
    omega
  rw [List.pairwise_map] at h1
  exact pairwise_of_filter (fun s : Song => s.valid_) (fun x y : Song => x.id_ < y.id_) _ h1

theorem construct_all_id_ne (calls : List CtorCall) (g : Env)
    (hlo : -2147483648 ≤ g.next_id_)
    (hb : g.next_id_ + (((construct_all g calls).1.filter (fun s => s.valid_)).length : Int) ≤
      2147483647)
    (i j : Nat)
    (hi : i < (construct_all g calls).1.length) (hj : j < (construct_all g calls).1.length)
    (hij : i ≠ j) (hvi : (construct_all g calls).1[i].valid_ = true)
    (hvj : (construct_all g calls).1[j].valid_ = true) :
    (construct_all g calls).1[i].id_ ≠ (construct_all g calls).1[j].id_ := by
  have hp := List.pairwise_iff_getElem.mp (construct_all_pairwise calls g hlo hb)
  rcases Nat.lt_or_gt_of_ne hij with h | h
  · have := hp i j hi hj h hvi hvj
    omega
  · have := hp j i hj hi h hvj hvi
    omega

/-- C14 (amended): in a run of constructions during which the `int` counter does not
overflow (the counter at the start plus the number of successful constructions is at most
2147483647; from the initial counter 1 that is at most 2147483646 successes), two objects
that come from two different successful constructions (positions `i ≠ j` in the order of
construction), each mutated afterwards by any setters and tag operations, are always
comparable: exactly one of `a < b` and `b < a` holds. -/
theorem operator_lt_total_on_constructed (g : Env) (calls : List CtorCall)
    (hlo : -2147483648 ≤ g.next_id_)
    (hb : g.next_id_ + (((construct_all g calls).1.filter (fun s => s.valid_)).length : Int) ≤
      2147483647)
    (i j : Nat)
    (a0 b0 : Song) (hi : (construct_all g calls).1[i]? = some a0)
    (hj : (construct_all g calls).1[j]? = some b0) (hij : i ≠ j)
    (hva : a0.valid_ = true) (hvb : b0.valid_ = true)
    (ga gb : Env) (ca cb : List Call) :
    (operator_lt (run_calls ga a0 ca).1 (run_calls gb b0 cb).1 = true ∧
      operator_lt (run_calls gb b0 cb).1 (run_calls ga a0 ca).1 = false) ∨
    (operator_lt (run_calls ga a0 ca).1 (run_calls gb b0 cb).1 = false ∧
      operator_lt (run_calls gb b0 cb).1 (run_calls ga a0 ca).1 = true) := by
  obtain ⟨hi2, rfl⟩ := List.getElem?_eq_some.mp hi
  obtain ⟨hj2, rfl⟩ := List.getElem?_eq_some.mp hj
  have hne := construct_all_id_ne calls g hlo hb i j hi2 hj2 hij hva hvb
  have hida := (run_calls_id_valid ca ga (construct_all g calls).1[i]).1
  have hidb := (run_calls_id_valid cb gb (construct_all g calls).1[j]).1
  generalize (run_calls ga (construct_all g calls).1[i] ca).1 = a at hida ⊢
  generalize (run_calls gb (construct_all g calls).1[j] cb).1 = b at hidb ⊢
  have hcomp : ¬ (operator_lt a b = false ∧ operator_lt b a = false) := by
    intro h
    have h3 := ((operator_lt_incomparable_iff a b).mp h).2.2
    exact hne (by rw [← hida, ← hidb, h3])
  cases hab : operator_lt a b with
  | true => exact Or.inl ⟨rfl, operator_lt_asymm a b hab⟩
  | false =>
    cases hba : operator_lt b a with
    | true => exact Or.inr ⟨rfl, rfl⟩
    | false => exact absurd ⟨hab, hba⟩ hcomp

/-- The first and the third object of the sample run (the second construction fails),
both afterwards given the title "Help" and the rating 4: their ids 1 and 2 decide. -/
theorem operator_lt_total_on_constructed_witness :
    (operator_lt (run_calls Env.init (sample 1 "Yesterday" 5)
          [Call.set_title "Help".toList, Call.set_rating 4]).1
        (run_calls Env.init (sample 2 "Let It Be" 3)
          [Call.set_rating 4, Call.set_title " Help ".toList]).1 = true ∧
      operator_lt (run_calls Env.init (sample 2 "Let It Be" 3)
          [Call.set_rating 4, Call.set_title " Help ".toList]).1
        (run_calls Env.init (sample 1 "Yesterday" 5)
          [Call.set_title "Help".toList, Call.set_rating 4]).1 = false) ∨
    (operator_lt (run_calls Env.init (sample 1 "Yesterday" 5)
          [Call.set_title "Help".toList, Call.set_rating 4]).1
        (run_calls Env.init (sample 2 "Let It Be" 3)
          [Call.set_rating 4, Call.set_title " Help ".toList]).1 = false ∧
      operator_lt (run_calls Env.init (sample 2 "Let It Be" 3)
          [Call.set_rating 4, Call.set_title " Help ".toList]).1
        (run_calls Env.init (sample 1 "Yesterday" 5)
          [Call.set_title "Help".toList, Call.set_rating 4]).1 = true) :=
  operator_lt_total_on_constructed Env.init sample_run (by decide) (by decide) 0 2 _ _
    (by decide) (by decide) (by decide) (by decide) (by decide) Env.init Env.init _ _

/-- C14 as stated fails on a run of 4294967297 passing calls from the initial state: after
2^32 increments the `int` counter is back at 1, so the first object and the one at position
4294967296 are two valid objects equal in rating, title and id, and neither precedes the
other. -/
theorem same_id_after_wrap :
    (construct_all Env.init (List.replicate 4294967297 yesterday_call)).1[0]? =
      some yesterday ∧
    (construct_all Env.init (List.replicate 4294967297 yesterday_call)).1[4294967296]? =
      some yesterday ∧
    yesterday.valid_ = true ∧
    operator_lt (run_calls Env.init yesterday []).1 (run_calls Env.init yesterday []).1 =
      false := by
  refine ⟨?_, ?_, by decide, by decide⟩
  · rw [construct_all_replicate yesterday_call (by decide) 4294967297 0 Env.init 1
      (by decide) (by decide)]
    decide
  · rw [construct_all_replicate yesterday_call (by decide) 4294967297 4294967296 Env.init 1
      (by decide) (by decide)]
    decide

/-! ## What the constructor stores and reports -/

/-- C15: for arguments that pass the four checks the constructed object holds the trimmed
title, the trimmed artist, the duration and the rating as given, no tags, and
`valid_ = true` (its id is the counter value on entry). -/
theorem ctor_stores (g : Env) (u : Indet) (title artist : Str) (duration_sec rating : Int)
    (hpass : trim_copy title ≠ [] ∧ trim_copy artist ≠ [] ∧ 0 < duration_sec ∧
      1 ≤ rating ∧ rating ≤ 5) :
    (Song.Song g u title artist duration_sec rating).1.title_ = trim_copy title ∧
    (Song.Song g u title artist duration_sec rating).1.artist_ = trim_copy artist ∧
    (Song.Song g u title artist duration_sec rating).1.duration_sec_ = duration_sec ∧
    (Song.Song g u title artist duration_sec rating).1.rating_ = rating ∧
    (Song.Song g u title artist duration_sec rating).1.tags_ = [] ∧
    (Song.Song g u title artist duration_sec rating).1.valid_ = true ∧
    (Song.Song g u title artist duration_sec rating).1.id_ = g.next_id_ := by
  obtain ⟨ht, ha, hd, hr1, hr5⟩ := hpass
  have hr : ¬ (rating < 1 ∨ rating > 5) := by omega
  have hd2 : ¬ duration_sec ≤ 0 := by omega
  simp [Song.Song, ht, ha, hd2, hr, Song.fresh]

/-- The spec's example: title "Yesterday", artist "The Beatles". -/
theorem ctor_stores_witness :
    trim_copy "  Yesterday ".toList = "Yesterday".toList ∧
    trim_copy "The Beatles".toList = "The Beatles".toList ∧
    construct_yesterday.1.title_ = trim_copy "  Yesterday ".toList ∧
    construct_yesterday.1.artist_ = trim_copy "The Beatles".toList :=
  ⟨by decide, by decide,
    (ctor_stores Env.init ⟨0, 0, 0, false⟩ "  Yesterday ".toList "The Beatles".toList 125 5
      (by decide)).1,
    (ctor_stores Env.init ⟨0, 0, 0, false⟩ "  Yesterday ".toList "The Beatles".toList 125 5
      (by decide)).2.1⟩

/-- C17: the constructor writes to `std::cerr` one line for each of the four conditions
that fails, each its own message, in the order title, artist, duration, rating, and
nothing else: the number of lines written is the number of failing conditions, and a
successful construction writes nothing. -/
theorem ctor_diagnostics (g : Env) (u : Indet) (title artist : Str)
    (duration_sec rating : Int) :
    (Song.Song g u title artist duration_sec rating).2.cerr =
      g.cerr ++
        (if trim_copy title = [] then ["[错误] 标题不能为空\n"] else []) ++
        (if trim_copy artist = [] then ["[错误] 艺人不能为空\n"] else []) ++
        (if duration_sec ≤ 0 then ["[错误] 时长必须为正整数（秒）\n"] else []) ++
        (if rating < 1 ∨ rating > 5 then ["[错误] 评分必须在 1...5 之间\n"] else []) ∧
    (Song.Song g u title artist duration_sec rating).2.cerr.length =
      g.cerr.length +
        ((if trim_copy title = [] then 1 else 0) + (if trim_copy artist = [] then 1 else 0) +
          (if duration_sec ≤ 0 then 1 else 0) + (if rating < 1 ∨ rating > 5 then 1 else 0)) ∧
    ((Song.Song g u title artist duration_sec rating).1.valid_ = true →
      (Song.Song g u title artist duration_sec rating).2.cerr = g.cerr) := by
  by_cases ht : trim_copy title = [] <;> by_cases ha : trim_copy artist = [] <;>
    by_cases hd : duration_sec ≤ 0 <;> by_cases hr : rating < 1 ∨ rating > 5 <;>
    simp [Song.Song, ht, ha, hd, hr, Song.fresh, Env.emit]

/-- The example construction writes nothing. -/
theorem ctor_diagnostics_witness : construct_yesterday.2.cerr = Env.init.cerr :=
  (ctor_diagnostics Env.init ⟨0, 0, 0, false⟩ "  Yesterday ".toList "The Beatles".toList
    125 5).2.2 (by decide)

/-! ## `trim_copy` against the spec's wording -/

theorem rdropWhile_append_rtakeWhile {α : Type} (p : α → Bool) (l : List α) :
    l.rdropWhile p ++ l.rtakeWhile p = l := by
  have h := congrArg List.reverse (List.takeWhile_append_dropWhile p l.reverse)
  rw [List.reverse_append, List.reverse_reverse] at h
  exact h

theorem trim_copy_head_last (s : Str) (h : trim_copy s ≠ []) :
    (trim_copy s).head h ∉ ws ∧ (trim_copy s).getLast h ∉ ws := by
  have hidem := trim_copy_idem s
  constructor
  · intro hmem
    cases ht : trim_copy s with
    | nil => exact h ht
    | cons x r =>
      have hx : x ∈ ws := by simpa [ht] using hmem
      have hd : (trim_copy s).dropWhile isWs = trim_copy s := by
        have h2 := trim_copy_eq (trim_copy s)
        rw [hidem] at h2
        have h3 := List.rdropWhile_prefix isWs ((trim_copy s).dropWhile isWs)
        rw [← h2] at h3
        have h4 := List.dropWhile_suffix isWs (l := trim_copy s)
        exact List.IsSuffix.eq_of_length_le h4 h3.length_le
      rw [ht] at hd
      simp [List.dropWhile_cons, isWs, hx] at hd
      have h5 := (List.dropWhile_suffix isWs (l := r)).length_le
      rw [hd] at h5
      simp at h5
  · have h2 := trim_copy_eq s
    have hne : (s.dropWhile isWs).rdropWhile isWs ≠ [] := by rw [← h2]; exact h
    have h3 := List.rdropWhile_last_not isWs (s.dropWhile isWs) hne
    intro hmem
    apply h3
    have h4 : (trim_copy s).getLast h = ((s.dropWhile isWs).rdropWhile isWs).getLast hne := by
      congr 1
    rw [← h4]
    simpa [isWs] using hmem

/-- C18: `trim_copy(s)` is `s` without its longest whitespace prefix and its longest
whitespace suffix (whitespace: space, tab, newline, carriage return).  It is empty exactly
when `s` has no other character; otherwise it begins and ends with a character that is not
whitespace; in every case `s` is a whitespace run, then `trim_copy(s)`, then a whitespace
run; and trimming twice is trimming once. -/
theorem trim_copy_spec (s : Str) :
    trim_copy s = trimmed_by_spec s ∧
    (trim_copy s = [] ↔ ∀ c ∈ s, c ∈ ws) ∧
    (∀ h : trim_copy s ≠ [], (trim_copy s).head h ∉ ws ∧ (trim_copy s).getLast h ∉ ws) ∧
    (∃ pre suf, s = pre ++ trim_copy s ++ suf ∧ (∀ c ∈ pre, c ∈ ws) ∧ (∀ c ∈ suf, c ∈ ws)) ∧
    trim_copy (trim_copy s) = trim_copy s := by
  refine ⟨trim_copy_eq s, trim_copy_eq_nil_iff s, trim_copy_head_last s, ?_, trim_copy_idem s⟩
  refine ⟨s.takeWhile isWs, (s.dropWhile isWs).rtakeWhile isWs, ?_, ?_, ?_⟩
  · rw [trim_copy_eq, List.append_assoc, rdropWhile_append_rtakeWhile,
      List.takeWhile_append_dropWhile]
  · intro c hc
    simpa [isWs] using List.mem_takeWhile_imp hc
  · intro c hc
    simpa [isWs] using List.mem_rtakeWhile_imp hc

/-- The spec's example title: non-empty after trimming, so it starts with a character that
is not whitespace. -/
theorem trim_copy_spec_witness :
    ∃ h : trim_copy "  Yesterday ".toList ≠ [],
      (trim_copy "  Yesterday ".toList).head h ∉ ws :=
  ⟨by decide, ((trim_copy_spec "  Yesterday ".toList).2.2.1 (by decide)).1⟩

/-! ## Add, remove, search -/

theorem remove_tag_scan_append (target x : Str) (l : List Str) (i : Nat)
    (hl : ∀ e ∈ l, to_lower_copy e ≠ target) (hx : to_lower_copy x = target) :
    remove_tag_scan target (l ++ [x]) i = some (i + l.length) := by
  induction l generalizing i with
  | nil => simp [remove_tag_scan, hx]
  | cons t ts ih =>
    have ht : to_lower_copy t ≠ target := hl t (List.mem_cons_self _ _)
    have hts : ∀ e ∈ ts, to_lower_copy e ≠ target :=
      fun e he => hl e (List.mem_cons_of_mem _ he)
    show remove_tag_scan target (t :: (ts ++ [x])) i = some (i + (t :: ts).length)
    rw [remove_tag_scan, if_neg ht, ih (i + 1) hts, List.length_cons, Option.some.injEq]
    omega

/-- C19: when `t` and `t1` have the same trimmed lower-cased form and `add_tag(t)` returns
true, the `remove_tag(t1)` that follows returns true and erases the entry just appended:
the tags, and the whole object, are what they were before `add_tag`. -/
theorem add_then_remove (g : Env) (self : Song) (t t1 : Str)
    (hsame : to_lower_copy (trim_copy t) = to_lower_copy (trim_copy t1))
    (hfirst : (self.add_tag g t).1 = true) :
    ((self.add_tag g t).2.1.remove_tag (self.add_tag g t).2.2 t1).1 = true ∧
    ((self.add_tag g t).2.1.remove_tag (self.add_tag g t).2.2 t1).2.1.tags_ = self.tags_ ∧
    ((self.add_tag g t).2.1.remove_tag (self.add_tag g t).2.2 t1).2.1 = self := by
  obtain ⟨ht, hnew⟩ := (add_tag_true_iff g self t).mp hfirst
  rw [add_tag_of_new g self t ht hnew]
  have hscan : remove_tag_scan (to_lower_copy (trim_copy t1)) (self.tags_ ++ [trim_copy t]) 0 =
      some (0 + self.tags_.length) :=
    remove_tag_scan_append _ _ _ 0 (by rw [← hsame]; exact hnew) hsame
  have herase : (self.tags_ ++ [trim_copy t]).eraseIdx (0 + self.tags_.length) = self.tags_ := by
    rw [List.eraseIdx_append_of_length_le (by omega)]
    simp
  refine ⟨?_, ?_, ?_⟩ <;> simp only [Song.remove_tag, hscan, herase]

/-- Adding " Rock" to the tags "Rocks", "Pop" and removing "ROCK" gives the two tags
back. -/
theorem add_then_remove_witness :
    ((({ yesterday with tags_ := ["Rocks".toList, "Pop".toList] } : Song).add_tag Env.init
        " Rock".toList).2.1.remove_tag
      (({ yesterday with tags_ := ["Rocks".toList, "Pop".toList] } : Song).add_tag Env.init
        " Rock".toList).2.2 "ROCK".toList).2.1.tags_ = ["Rocks".toList, "Pop".toList] :=
  (add_then_remove Env.init { yesterday with tags_ := ["Rocks".toList, "Pop".toList] }
    " Rock".toList "ROCK".toList (by decide) (by decide)).2.1

/-- C20: after `add_tag(t)` with a non-empty trimmed `t`, whether the call appended the tag
or rejected it as a duplicate, `matches_keyword(t)` is true, and so is
`matches_keyword(t1)` for every `t1` that differs from `t` only in the case of its
letters. -/
theorem added_tag_searchable (g g1 : Env) (self : Song) (t t1 : Str)
    (ht : trim_copy t ≠ []) (hcase : to_lower_copy t1 = to_lower_copy t) :
    ((self.add_tag g t).2.1.matches_keyword g1 t).1 = true ∧
    ((self.add_tag g t).2.1.matches_keyword g1 t1).1 = true := by
  have hk : to_lower_copy (trim_copy t1) = to_lower_copy (trim_copy t) := by
    rw [to_lower_copy_trim_copy, to_lower_copy_trim_copy, hcase]
  have hne : to_lower_copy (trim_copy t) ≠ [] := by
    rw [Ne, to_lower_copy_eq_nil_iff]; exact ht
  have hfound : ∃ x ∈ (self.add_tag g t).2.1.tags_.map to_lower_copy,
      to_lower_copy (trim_copy t) <:+: x := by
    by_cases hdup : ∃ e ∈ self.tags_, to_lower_copy e = to_lower_copy (trim_copy t)
    · rw [add_tag_of_dup g self t ht hdup]
      obtain ⟨e, he, heq⟩ := hdup
      exact ⟨to_lower_copy e, List.mem_map.mpr ⟨e, he, rfl⟩, by rw [heq]⟩
    · have hnew : ∀ e ∈ self.tags_, to_lower_copy e ≠ to_lower_copy (trim_copy t) :=
        fun e he heq => hdup ⟨e, he, heq⟩
      rw [add_tag_of_new g self t ht hnew]
      exact ⟨to_lower_copy (trim_copy t), List.mem_map.mpr ⟨trim_copy t, by simp, rfl⟩,
        List.infix_refl _⟩
  constructor
  · rw [matches_keyword_true_iff]
    exact ⟨hne, Or.inr (Or.inr hfound)⟩
  · rw [matches_keyword_true_iff, hk]
    exact ⟨hne, Or.inr (Or.inr hfound)⟩

/-- After adding " Live " to the example object, "Live" and "LIVE" are both found. -/
theorem added_tag_searchable_witness :
    ((yesterday.add_tag Env.init " Live ".toList).2.1.matches_keyword Env.init
      " Live ".toList).1 = true ∧
    ((yesterday.add_tag Env.init " Live ".toList).2.1.matches_keyword Env.init
      " LIVE ".toList).1 = true :=
  added_tag_searchable Env.init Env.init yesterday " Live ".toList " LIVE ".toList
    (by decide) (by decide)

/-! ## Rendering -/

theorem join_tags_foldl_append (sep : Str) (ts : List Str) (a b : Str) :
    ts.foldl (fun ss tag => ss ++ sep ++ tag) (a ++ b) =
      a ++ ts.foldl (fun ss tag => ss ++ sep ++ tag) b := by
  induction ts generalizing b with
  | nil => rfl
  | cons t ts ih =>
    simp only [List.foldl_cons]
    rw [List.append_assoc a b sep, List.append_assoc a (b ++ sep) t, ih]

/-- The loop of `join_tags` puts `", "` between neighbours and nowhere else. -/
theorem join_tags_eq (tags : List Str) : join_tags tags = joined_by_spec tags := by
  cases tags with
  | nil => rfl
  | cons t ts =>
    induction ts generalizing t with
    | nil => simp [join_tags, joined_by_spec, List.intercalate]
    | cons t2 ts ih =>
      have h1 : join_tags (t :: t2 :: ts) = t ++ ", ".toList ++ join_tags (t2 :: ts) := by
        simp only [join_tags, List.foldl_cons]
        rw [join_tags_foldl_append]
      have h2 : joined_by_spec (t :: t2 :: ts) =
          t ++ ", ".toList ++ joined_by_spec (t2 :: ts) := by
        simp [joined_by_spec, List.intercalate]
      rw [h1, h2, ih t2]

/-- The text written for an object whose rating is not negative. -/
theorem operator_shl_of_nonneg (os : Str) (s : Song) (h : 0 ≤ s.rating_) :
    operator_shl os s =
      some (os ++ "[#".toList ++ decimal s.id_ ++ "] ".toList ++ s.artist_ ++ " - ".toList ++
        s.title_ ++ " (".toList ++ decimal s.duration_sec_ ++ "s) ".toList ++
        List.replicate s.rating_.toNat '*' ++
        (if s.tags_ = [] then []
          else "  [tags: ".toList ++ joined_by_spec s.tags_ ++ "]".toList)) := by
  have hn : ¬ s.rating_ < 0 := by omega
  by_cases ht : s.tags_ = []
  · simp [operator_shl, fill_string, hn, ht]
  · have he : s.tags_.isEmpty = false := by
      cases hk : s.tags_ with
      | nil => exact absurd hk ht
      | cons _ _ => rfl
    simp [operator_shl, fill_string, hn, ht, he, join_tags_eq]

/-- C16: for a valid object (constructed successfully, then mutated by any calls) written
to a stream holding `os`, the stream afterwards holds `os` followed by exactly
`"[#" id "] " artist " - " title " (" duration "s) "`, then `rating_` asterisks, then, if
and only if there are tags, two spaces and `"[tags: " t1 ", " t2 ... "]"` with the tags in
insertion order.  Without tags the text ends with an asterisk. -/
theorem operator_shl_spec (os : Str) (g : Env) (u : Indet) (title artist : Str)
    (duration_sec rating : Int) (calls : List Call)
    (hv : (Song.Song g u title artist duration_sec rating).1.valid_ = true) :
    let c := Song.Song g u title artist duration_sec rating
    let s := (run_calls c.2 c.1 calls).1
    ((s.rating_.toNat : Int) = s.rating_) ∧
    operator_shl os s =
      some (os ++ "[#".toList ++ decimal s.id_ ++ "] ".toList ++ s.artist_ ++ " - ".toList ++
        s.title_ ++ " (".toList ++ decimal s.duration_sec_ ++ "s) ".toList ++
        List.replicate s.rating_.toNat '*' ++
        (if s.tags_ = [] then []
          else "  [tags: ".toList ++ joined_by_spec s.tags_ ++ "]".toList)) ∧
    (s.tags_ = [] → ∃ body, operator_shl os s = some (body ++ ['*'])) := by
  intro c s
  obtain ⟨_, _, _, _, _, h6, _, _⟩ :=
    run_calls_inv calls c.2 c.1 (ctor_inv g u title artist duration_sec rating hv)
  have h0 : 0 ≤ s.rating_ := by
    have : 1 ≤ s.rating_ := h6
    omega
  have hnat : (s.rating_.toNat : Int) = s.rating_ := Int.toNat_of_nonneg h0
  refine ⟨hnat, operator_shl_of_nonneg os s h0, ?_⟩
  intro ht
  have hpos : s.rating_.toNat = (s.rating_.toNat - 1) + 1 := by
    have : 1 ≤ s.rating_ := h6
    omega
  rw [operator_shl_of_nonneg os s h0, if_pos ht, List.append_nil, hpos, List.replicate_succ']
  exact ⟨_, by rw [← List.append_assoc]⟩

/-- The spec's example renders as `[#1] The Beatles - Yesterday (125s) *****`, and with the
tags "Rock" and "60s" added as that followed by `  [tags: Rock, 60s]`. -/
theorem operator_shl_spec_witness :
    operator_shl [] yesterday = some "[#1] The Beatles - Yesterday (125s) *****".toList ∧
    operator_shl [] (run_calls construct_yesterday.2 construct_yesterday.1
        [Call.add_tag "Rock".toList, Call.add_tag "60s".toList]).1 =
      some "[#1] The Beatles - Yesterday (125s) *****  [tags: Rock, 60s]".toList :=
  ⟨((operator_shl_spec [] Env.init ⟨0, 0, 0, false⟩ "  Yesterday ".toList "The Beatles".toList
      125 5 [] (by decide)).2.1).trans (by decide),
    ((operator_shl_spec [] Env.init ⟨0, 0, 0, false⟩ "  Yesterday ".toList "The Beatles".toList
      125 5 [Call.add_tag "Rock".toList, Call.add_tag "60s".toList] (by decide)).2.1).trans
      (by decide)⟩
